import Mathlib

/-!
# pgbackup: a verification development

A shallow embedding of `main.go` (the pgbackup orchestrator) together with
theorems about its start-up checks, schedule validation, tree upload,
metadata record and backup run.

Go strings are modelled as lists of characters (`Str`).  The file system,
the object store, the external tool and the clock are explicit state or
explicit outcomes passed to the functions that use them.
-/

namespace PgBackup

/-- Go strings, as lists of characters. -/
abbrev Str := List Char

/-! ## Library functions used by the program (`strings`, `path/filepath`) -/

/-- Go `unicode.IsSpace`: the Latin-1 spaces and the Unicode White_Space code points. -/
def isSpace (c : Char) : Bool :=
  let n := c.toNat
  n == 0x09 || n == 0x0A || n == 0x0B || n == 0x0C || n == 0x0D || n == 0x20 ||
  n == 0x85 || n == 0xA0 || n == 0x1680 || (0x2000 ≤ n && n ≤ 0x200A) ||
  n == 0x2028 || n == 0x2029 || n == 0x202F || n == 0x205F || n == 0x3000

/-- Go `strings.TrimFunc`: drop the leading and the trailing characters satisfying `p`. -/
def trimFunc (p : Char → Bool) (s : Str) : Str :=
  (s.dropWhile p).rdropWhile p

/-- Go `strings.TrimSpace`. -/
def trimSpace (s : Str) : Str := trimFunc isSpace s

/-- Go `strings.Trim(s, cutset)`. -/
def trim (s cutset : Str) : Str := trimFunc (fun c => cutset.contains c) s

/-- Go `strings.TrimPrefix`. -/
def trimPrefix (s pre : Str) : Str :=
  if pre.isPrefixOf s then s.drop pre.length else s

/-! ## Configuration -/

/-- The process environment: `os.Getenv`, which yields the empty string for an unset name. -/
abbrev Environ := Str → Str

/-- Source `getEnv`: the value with surrounding white space, then surrounding slashes, removed. -/
def getEnv (env : Environ) (name : Str) : Str :=
  let envVar := env name
  let trimmedVar := trimSpace envVar
  let trimmedVar := trim trimmedVar "/".toList
  trimmedVar

/-- The package-level configuration variables of the program. -/
structure Config where
  DB_HOST : Str
  DB_PORT : Str
  REMOTE_FOLDER : Str
  S3_ACCESS_KEY : Str
  S3_BUCKET_NAME : Str
  S3_ENDPOINT : Str
  S3_REGION : Str
  S3_SECRET_KEY : Str
  SCHEDULE : Str
  POSTGRES_PASSWORD : Str
  POSTGRES_USER : Str
  deriving DecidableEq, Repr

/-- The names of the eleven settings, in the order `main` checks them. -/
def settingNames : List Str :=
  ["DB_HOST".toList, "DB_PORT".toList, "REMOTE_FOLDER".toList, "S3_ACCESS_KEY".toList,
   "S3_BUCKET_NAME".toList, "S3_ENDPOINT".toList, "S3_REGION".toList, "S3_SECRET_KEY".toList,
   "SCHEDULE".toList, "POSTGRES_PASSWORD".toList, "POSTGRES_USER".toList]

/-- Initialisation of the package-level variables from the environment. -/
def loadConfig (env : Environ) : Config where
  DB_HOST := getEnv env "DB_HOST".toList
  DB_PORT := getEnv env "DB_PORT".toList
  REMOTE_FOLDER := getEnv env "REMOTE_FOLDER".toList
  S3_ACCESS_KEY := getEnv env "S3_ACCESS_KEY".toList
  S3_BUCKET_NAME := getEnv env "S3_BUCKET_NAME".toList
  S3_ENDPOINT := getEnv env "S3_ENDPOINT".toList
  S3_REGION := getEnv env "S3_REGION".toList
  S3_SECRET_KEY := getEnv env "S3_SECRET_KEY".toList
  SCHEDULE := getEnv env "SCHEDULE".toList
  POSTGRES_PASSWORD := getEnv env "POSTGRES_PASSWORD".toList
  POSTGRES_USER := getEnv env "POSTGRES_USER".toList

/-- What a start-up check does: return, or terminate the process (`log.Fatalf`). -/
inductive Startup where
  | returns
  | fatal (msg : Str)
  deriving DecidableEq, Repr

/-- Source `noEmptyValues`: fatal at the first empty value. -/
def noEmptyValues : List Str → Startup
  | [] => .returns
  | v :: rest =>
    if v = [] then .fatal "Environment variables cannot be empty.".toList
    else noEmptyValues rest

/-- The first statement of `main`: `noEmptyValues` on the eleven variables. -/
def checkConfig (cfg : Config) : Startup :=
  noEmptyValues [cfg.DB_HOST, cfg.DB_PORT, cfg.REMOTE_FOLDER, cfg.S3_ACCESS_KEY,
    cfg.S3_BUCKET_NAME, cfg.S3_ENDPOINT, cfg.S3_REGION, cfg.S3_SECRET_KEY,
    cfg.SCHEDULE, cfg.POSTGRES_PASSWORD, cfg.POSTGRES_USER]

/-- Start-up as far as the configuration check: load the variables, then check them. -/
def startup (env : Environ) : Startup := checkConfig (loadConfig env)

/-- A blank raw value in the sense of the specification: empty or white space only. -/
def isBlank (raw : Str) : Bool := raw.all isSpace

/-- A raw value that `getEnv` normalises to the empty string: white space around slashes only. -/
def normalisesToEmpty (raw : Str) : Bool := (trimSpace raw).all (fun c => c == '/')

/-- An environment in which every setting is `x`, except `DB_HOST`, which is `/`. -/
def slashEnv : Environ := fun name => if name = "DB_HOST".toList then "/".toList else "x".toList

/-! ## The metadata record and its JSON form (`encoding/json`) -/

/-- Source `Metadata`: `LastSnapshot *string` with the JSON name `lastSnapshot`. -/
structure Metadata where
  LastSnapshot : Option Str
  deriving DecidableEq, Repr

/-- A hexadecimal digit (lower case, as `encoding/json` writes them). -/
def hexDigit (n : Nat) : Char :=
  if n < 10 then Char.ofNat (48 + n) else Char.ofNat (87 + n)

/-- The escape `\uXXXX` of a code point below `0x10000`. -/
def uEscape (n : Nat) : Str :=
  ['\\', 'u', hexDigit (n / 4096 % 16), hexDigit (n / 256 % 16), hexDigit (n / 16 % 16),
    hexDigit (n % 16)]

/-- One character of a JSON string, as `json.Marshal` writes it (HTML escaping on): the
quote and the backslash are escaped with a backslash, control characters and `<`, `>`, `&`,
U+2028, U+2029 as short or `\u` escapes, every other character is written as it is. -/
def encodeChar (c : Char) : Str :=
  if c = '"' then ['\\', '"']
  else if c = '\\' then ['\\', '\\']
  else if c = '\x08' then ['\\', 'b']
  else if c = '\x0c' then ['\\', 'f']
  else if c = '\n' then ['\\', 'n']
  else if c = '\r' then ['\\', 'r']
  else if c = '\t' then ['\\', 't']
  else if c.toNat < 0x20 ∨ c = '<' ∨ c = '>' ∨ c = '&' ∨ c.toNat = 0x2028 ∨ c.toNat = 0x2029 then
    uEscape c.toNat
  else [c]

/-- A Go string as a JSON string literal. -/
def encodeString (s : Str) : Str :=
  ['"'] ++ (s.map encodeChar).flatten ++ ['"']

/-- `json.Marshal` on a `*Metadata`: one member, `null` for a nil pointer.  It cannot fail
on this type. -/
def marshalMetadata (m : Metadata) : Str :=
  "\x7b\"lastSnapshot\":".toList ++
    (match m.LastSnapshot with
      | none => "null".toList
      | some s => encodeString s) ++ "\x7d".toList

/-- JSON values; a number keeps its text. -/
inductive JVal where
  | null
  | bool (b : Bool)
  | num (raw : Str)
  | str (s : Str)
  | arr (xs : List JVal)
  | obj (kvs : List (Str × JVal))

/-- JSON white space. -/
def isJsonSpace (c : Char) : Bool := c == ' ' || c == '\t' || c == '\r' || c == '\n'

/-- Skip JSON white space. -/
def skipWs (s : Str) : Str := s.dropWhile isJsonSpace

/-- The value of a hexadecimal digit. -/
def hexVal (c : Char) : Option Nat :=
  let n := c.toNat
  if 48 ≤ n ∧ n ≤ 57 then some (n - 48)
  else if 97 ≤ n ∧ n ≤ 102 then some (n - 87)
  else if 65 ≤ n ∧ n ≤ 70 then some (n - 55)
  else none

/-- Four hexadecimal digits at the head of the input. -/
def hex4 : Str → Option (Nat × Str)
  | a :: b :: c :: d :: rest =>
    match hexVal a, hexVal b, hexVal c, hexVal d with
    | some x, some y, some z, some w => some (((x * 16 + y) * 16 + z) * 16 + w, rest)
    | _, _, _, _ => none
  | _ => none

/-- The character an escape stands for, given the input after the backslash.  A `\u` escape
of a surrogate is combined with a following low surrogate escape, and is U+FFFD otherwise. -/
def unescape : Str → Option (Char × Str)
  | '"' :: rest => some ('"', rest)
  | '\\' :: rest => some ('\\', rest)
  | '/' :: rest => some ('/', rest)
  | 'b' :: rest => some ('\x08', rest)
  | 'f' :: rest => some ('\x0c', rest)
  | 'n' :: rest => some ('\n', rest)
  | 'r' :: rest => some ('\r', rest)
  | 't' :: rest => some ('\t', rest)
  | 'u' :: rest =>
    match hex4 rest with
    | none => none
    | some (n, rest1) =>
      if 0xD800 ≤ n ∧ n < 0xE000 then
        match rest1 with
        | '\\' :: 'u' :: rest2 =>
          match hex4 rest2 with
          | some (m, rest3) =>
            if n < 0xDC00 ∧ 0xDC00 ≤ m ∧ m < 0xE000 then
              some (Char.ofNat (0x10000 + (n - 0xD800) * 0x400 + (m - 0xDC00)), rest3)
            else some (Char.ofNat 0xFFFD, rest1)
          | none => some (Char.ofNat 0xFFFD, rest1)
        | _ => some (Char.ofNat 0xFFFD, rest1)
      else some (Char.ofNat n, rest1)
  | _ => none

/-- The body of a JSON string, the opening quote already read: the decoded text and the
input after the closing quote.  A raw control character is a syntax error. -/
def scanString : Nat → Str → Str → Option (Str × Str)
  | 0, _, _ => none
  | _ + 1, [], _ => none
  | fuel + 1, c :: rest, acc =>
    if c = '"' then some (acc, rest)
    else if c = '\\' then
      match unescape rest with
      | none => none
      | some (d, rest1) => scanString fuel rest1 (acc ++ [d])
    else if c.toNat < 0x20 then none
    else scanString fuel rest (acc ++ [c])

/-- A run of decimal digits: the digits and the rest. -/
def spanDigits (s : Str) : Str × Str := s.span Char.isDigit

/-- A JSON number at the head of the input: its text and the rest. -/
def scanNumber (s : Str) : Option (Str × Str) :=
  let (sign, s1) := match s with
    | '-' :: r => (['-'], r)
    | _ => ([], s)
  let intPart : Option (Str × Str) := match s1 with
    | '0' :: r => some (['0'], r)
    | c :: _ => if c.isDigit then some (spanDigits s1) else none
    | [] => none
  match intPart with
  | none => none
  | some (ip, s2) =>
    let frac : Option (Str × Str) := match s2 with
      | '.' :: r =>
        let (ds, r1) := spanDigits r
        if ds = [] then none else some ('.' :: ds, r1)
      | _ => some ([], s2)
    match frac with
    | none => none
    | some (fp, s3) =>
      let ex : Option (Str × Str) := match s3 with
        | e :: r =>
          if e = 'e' ∨ e = 'E' then
            let (sg, r1) := match r with
              | '+' :: q => (['+'], q)
              | '-' :: q => (['-'], q)
              | _ => ([], r)
            let (ds, r2) := spanDigits r1
            if ds = [] then none else some (e :: sg ++ ds, r2)
          else some ([], s3)
        | [] => some ([], s3)
      match ex with
      | none => none
      | some (ep, s4) => some (sign ++ ip ++ fp ++ ep, s4)

mutual
/-- A JSON value at the head of the input (after white space): the value and the rest. -/
def parseValue : Nat → Str → Option (JVal × Str)
  | 0, _ => none
  | fuel + 1, input =>
    match skipWs input with
    | [] => none
    | c :: rest =>
      if c = '{' then
        match skipWs rest with
        | '}' :: r => some (.obj [], r)
        | _ => (parseMembers fuel rest).map (fun p => (.obj p.1, p.2))
      else if c = '[' then
        match skipWs rest with
        | ']' :: r => some (.arr [], r)
        | _ => (parseElems fuel rest).map (fun p => (.arr p.1, p.2))
      else if c = '"' then
        (scanString rest.length rest []).map (fun p => (.str p.1, p.2))
      else if c = 'n' then
        if "ull".toList.isPrefixOf rest then some (.null, rest.drop 3) else none
      else if c = 't' then
        if "rue".toList.isPrefixOf rest then some (.bool true, rest.drop 3) else none
      else if c = 'f' then
        if "alse".toList.isPrefixOf rest then some (.bool false, rest.drop 4) else none
      else (scanNumber (c :: rest)).map (fun p => (.num p.1, p.2))
/-- The elements of a non-empty array, the opening bracket already read. -/
def parseElems : Nat → Str → Option (List JVal × Str)
  | 0, _ => none
  | fuel + 1, input =>
    match parseValue fuel input with
    | none => none
    | some (v, rest) =>
      match skipWs rest with
      | ',' :: r => (parseElems fuel r).map (fun p => (v :: p.1, p.2))
      | ']' :: r => some ([v], r)
      | _ => none
/-- The members of a non-empty object, the opening brace already read. -/
def parseMembers : Nat → Str → Option (List (Str × JVal) × Str)
  | 0, _ => none
  | fuel + 1, input =>
    match skipWs input with
    | '"' :: rest =>
      match scanString rest.length rest [] with
      | none => none
      | some (k, rest1) =>
        match skipWs rest1 with
        | ':' :: rest2 =>
          match parseValue fuel rest2 with
          | none => none
          | some (v, rest3) =>
            match skipWs rest3 with
            | ',' :: r => (parseMembers fuel r).map (fun p => ((k, v) :: p.1, p.2))
            | '}' :: r => some ([(k, v)], r)
            | _ => none
        | _ => none
    | _ => none
end

/-- A whole JSON text: one value, white space around it, nothing after it. -/
def parseJson (input : Str) : Option JVal :=
  match parseValue (2 * input.length + 2) input with
  | some (v, rest) => if skipWs rest = [] then some v else none
  | none => none

/-- Simple case folding of the characters of `lastSnapshot`: ASCII upper case, and the long s. -/
def foldChar (c : Char) : Char :=
  if c.toNat = 0x17F then 's'
  else if 65 ≤ c.toNat ∧ c.toNat ≤ 90 then Char.ofNat (c.toNat + 32)
  else c

/-- The object key names the field `lastSnapshot` (matched without regard to case). -/
def isLastSnapshotKey (k : Str) : Bool := k.map foldChar == "lastsnapshot".toList

/-- Decoding the members of an object into a `Metadata`, in order: `null` clears the field,
a string sets it, a value of another kind is a type error (reported when decoding ends);
other keys are ignored. -/
def decodeMembers : List (Str × JVal) → Metadata → Bool → Metadata × Bool
  | [], m, bad => (m, bad)
  | (k, v) :: rest, m, bad =>
    if isLastSnapshotKey k then
      match v with
      | .null => decodeMembers rest { LastSnapshot := none } bad
      | .str s => decodeMembers rest { LastSnapshot := some s } bad
      | _ => decodeMembers rest m true
    else decodeMembers rest m bad

/-- `json.Unmarshal(body, &metadata)` on a zero `Metadata`: `none` stands for an error
(a syntax error, or a value of the wrong kind). -/
def unmarshalMetadata (body : Str) : Option Metadata :=
  match parseJson body with
  | none => none
  | some .null => some { LastSnapshot := none }
  | some (.obj kvs) =>
    match decodeMembers kvs { LastSnapshot := none } false with
    | (m, false) => some m
    | (_, true) => none
  | some _ => none

/-- `%d` of a non-negative integer. -/
def fmtNat (n : Nat) : Str := Nat.toDigits 10 n

/-- `fmt.Sprintf("%d", i)`: decimal, with a minus sign for a negative integer. -/
def fmtInt (i : Int) : Str :=
  if i < 0 then '-' :: fmtNat i.natAbs else fmtNat i.natAbs

/-- The snapshot identifier `runCommand` derives from the clock: `snapshot-<unix seconds>`. -/
def snapshotName (unixTimestamp : Int) : Str := "snapshot-".toList ++ fmtInt unixTimestamp

/-! ## `path/filepath` (Unix) -/

/-- The elements of a path: the pieces between separators (Go `strings.Split(s, sep)`). -/
def splitSep (sep : Char) : Str → List Str
  | [] => [[]]
  | c :: rest =>
    if c = sep then [] :: splitSep sep rest
    else
      match splitSep sep rest with
      | [] => [[c]]
      | h :: t => (c :: h) :: t

/-- Go `strings.Join(elems, sep)` for a one-character separator. -/
def joinSep (sep : Char) : List Str → Str
  | [] => []
  | [a] => a
  | a :: b :: rest => a ++ sep :: joinSep sep (b :: rest)

/-- One element of the path in `filepath.Clean`, `out` being the elements written so far,
last first: an empty element and `.` are dropped; `..` removes the last element written
when that is a real element, is dropped at the root, and is kept otherwise; any other
element is written. -/
def cleanStep (rooted : Bool) (out : List Str) (elem : Str) : List Str :=
  if elem = [] ∨ elem = ['.'] then out
  else if elem = ['.', '.'] then
    match out with
    | top :: below => if top = ['.', '.'] then elem :: out else below
    | [] => if rooted then out else elem :: out
  else elem :: out

/-- The elements `filepath.Clean` keeps, in path order. -/
def cleanElems (rooted : Bool) (elems : List Str) : List Str :=
  (elems.foldl (cleanStep rooted) []).reverse

/-- Go `filepath.Clean`: the shortest equivalent path, `.` for the empty one. -/
def Clean (path : Str) : Str :=
  if path = [] then ['.']
  else
    let rooted := path.head? = some '/'
    let out := cleanElems rooted (splitSep '/' path)
    if rooted then '/' :: joinSep '/' out
    else if out = [] then ['.']
    else joinSep '/' out

/-- Go `filepath.Join`: the elements from the first non-empty one on, joined with the
separator and cleaned; the empty string when every element is empty. -/
def Join (elem : List Str) : Str :=
  match elem.dropWhile (fun e => e = []) with
  | [] => []
  | es => Clean (joinSep '/' es)

/-! ## Remote storage and the tree upload -/

/-- The bucket: objects by key, the latest write of a key first. -/
abbrev Store := List (Str × Str)

/-- A successful `PutObject`. -/
def putObject (key body : Str) (remote : Store) : Store := (key, body) :: remote

/-- The object a successful `GetObject` delivers, if the key exists. -/
def getObject (remote : Store) (key : Str) : Option Str := remote.lookup key

/-- What happens when `uploadFile` runs on a file. -/
inductive UploadOutcome where
  | openFails (err : Str)
  | statFails (err : Str)
  | putFails (err : Str)
  | ok
  deriving DecidableEq, Repr

/-- Source `uploadFile`: open the file, stat it, put it under the key. -/
def uploadFile (o : UploadOutcome) (filePath key body : Str) (remote : Store) :
    Option Str × Store :=
  match o with
  | .openFails err => (some ("Failed to open file ".toList ++ filePath ++ ": ".toList ++ err), remote)
  | .statFails err =>
    (some ("Failed to get file info for ".toList ++ filePath ++ ": ".toList ++ err), remote)
  | .putFails err =>
    (some ("Failed to upload file ".toList ++ filePath ++ ": ".toList ++ err), remote)
  | .ok => (none, putObject key body remote)

/-- One call of the walk function by `filepath.Walk`: the path, whether it is a directory,
the error the walk hands over, and, for a file, its contents and what its upload does. -/
structure WalkEntry where
  path : Str
  isDir : Bool
  walkErr : Option Str
  body : Str
  upload : UploadOutcome
  deriving DecidableEq, Repr

/-- The key `UploadFolder` computes for a walked path. -/
def s3KeyOf (backupFolderPath saveToS3Path path : Str) : Str :=
  let relativePath := trimPrefix path backupFolderPath
  let relativePath := trimPrefix relativePath ['/']
  Join [saveToS3Path, relativePath]

/-- The walk function of `UploadFolder` on one entry. -/
def walkFn (backupFolderPath saveToS3Path : Str) (e : WalkEntry) (remote : Store) :
    Option Str × Store :=
  match e.walkErr with
  | some err => (some ("Error accessing file ".toList ++ e.path ++ ": ".toList ++ err), remote)
  | none =>
    if e.isDir then (none, remote)
    else
      let s3Key := s3KeyOf backupFolderPath saveToS3Path e.path
      match uploadFile e.upload e.path s3Key e.body remote with
      | (some err, remote1) =>
        (some ("Failed to upload file ".toList ++ e.path ++ ": ".toList ++ err), remote1)
      | (none, remote1) => (none, remote1)

/-- Go `filepath.Walk` over the entries it visits: it stops at the first error the walk
function returns. -/
def walk (backupFolderPath saveToS3Path : Str) : List WalkEntry → Store → Option Str × Store
  | [], remote => (none, remote)
  | e :: rest, remote =>
    match walkFn backupFolderPath saveToS3Path e remote with
    | (some err, remote1) => (some err, remote1)
    | (none, remote1) => walk backupFolderPath saveToS3Path rest remote1

/-- Source `UploadFolder`. -/
def UploadFolder (backupFolderPath saveToS3Path : Str) (entries : List WalkEntry)
    (remote : Store) : Option Str × Store :=
  match walk backupFolderPath saveToS3Path entries remote with
  | (some err, remote1) => (some ("Failed to upload folder: ".toList ++ err), remote1)
  | (none, remote1) => (none, remote1)

/-- The objects a run of the walk puts when every upload succeeds: key and contents of each
file, in walk order. -/
def uploadsOf (backupFolderPath saveToS3Path : Str) (entries : List WalkEntry) : Store :=
  (entries.filter (fun e => !e.isDir)).map
    (fun e => (s3KeyOf backupFolderPath saveToS3Path e.path, e.body))

/-- An entry on which the walk function returns no error. -/
def entryOk (e : WalkEntry) : Bool :=
  e.walkErr.isNone && (e.isDir || e.upload == .ok)

/-- The inner error of `uploadFile` for a failing outcome. -/
def uploadError (o : UploadOutcome) (filePath : Str) : Str :=
  match o with
  | .openFails err => "Failed to open file ".toList ++ filePath ++ ": ".toList ++ err
  | .statFails err => "Failed to get file info for ".toList ++ filePath ++ ": ".toList ++ err
  | .putFails err => "Failed to upload file ".toList ++ filePath ++ ": ".toList ++ err
  | .ok => []

/-! ## The backup run -/

/-- Source `backupsPath`. -/
def backupsPath : Str := "/tmp/backups".toList

/-- Source `getBackupPath`. -/
def getBackupPath (p : Str) : Str :=
  if p ≠ [] then backupsPath ++ "/".toList ++ p else backupsPath

/-- The key of the metadata object: `REMOTE_FOLDER/metadata.json`. -/
def metadataKey (cfg : Config) : Str := cfg.REMOTE_FOLDER ++ "/metadata.json".toList

/-- The key of a snapshot's manifest: `REMOTE_FOLDER/<snapshot>/backup_manifest`. -/
def manifestKey (cfg : Config) (snapshot : Str) : Str :=
  cfg.REMOTE_FOLDER ++ "/".toList ++ snapshot ++ "/backup_manifest".toList

/-- What happens when `GetMetadata` fetches and reads the metadata object. -/
inductive FetchOutcome where
  | fetchFails
  | readFails
  | ok
  deriving DecidableEq, Repr

/-- Source `GetMetadata`: nil on a failed fetch (a missing key included), a failed read or
a failed parse. -/
def GetMetadata (cfg : Config) (o : FetchOutcome) (remote : Store) : Option Metadata :=
  let objectKey := metadataKey cfg
  match o, getObject remote objectKey with
  | .fetchFails, _ => none
  | _, none => none
  | .readFails, _ => none
  | .ok, some body => unmarshalMetadata body

/-- Source `SetMetadata`: marshal the record and put it under the metadata key. -/
def SetMetadata (cfg : Config) (putErr : Option Str) (metadata : Metadata) (remote : Store) :
    Option Str × Store :=
  let objectKey := metadataKey cfg
  let data := marshalMetadata metadata
  match putErr with
  | some err => (some ("Failed to upload metadata.json: ".toList ++ err), remote)
  | none => (none, putObject objectKey data remote)

/-- What happens when `DownloadFile` runs. -/
inductive DownloadOutcome where
  | fetchFails (err : Str)
  | createFails (err : Str)
  | copyFails (err : Str)
  | ok
  deriving DecidableEq, Repr

/-- A file or directory is created directly under the staging root: `staging` lists the
paths of the children of the staging root. -/
def createPath (path : Str) (staging : List Str) : List Str :=
  if path ∈ staging then staging else staging ++ [path]

/-- Source `DownloadFile`: the fetch fails when the key is missing; once `os.Create` has
succeeded the local file exists. -/
def DownloadFile (o : DownloadOutcome) (remote : Store) (objectKey localPath : Str)
    (staging : List Str) : Option Str × List Str :=
  match o, getObject remote objectKey with
  | .fetchFails err, _ =>
    (some ("Failed to fetch object ".toList ++ objectKey ++ ": ".toList ++ err), staging)
  | _, none =>
    (some ("Failed to fetch object ".toList ++ objectKey ++ ": NoSuchKey".toList), staging)
  | .createFails err, some _ =>
    (some ("Failed to create local file ".toList ++ localPath ++ ": ".toList ++ err), staging)
  | .copyFails err, some _ =>
    (some ("Failed to save file ".toList ++ localPath ++ ": ".toList ++ err),
      createPath localPath staging)
  | .ok, some _ => (none, createPath localPath staging)

/-- What the external tool does: its exit error, if any, and whether its output directory
exists afterwards. -/
structure ToolOutcome where
  exitErr : Option Str
  leavesDir : Bool
  deriving DecidableEq, Repr

/-- The argument list `runCommand` builds for `pg_basebackup`. -/
def commandArgs (cfg : Config) (pgData : Str) (backupManifest : Option Str) : List Str :=
  let args := ["--host=".toList ++ cfg.DB_HOST, "--port=".toList ++ cfg.DB_PORT,
    "--username=".toList ++ cfg.POSTGRES_USER, "--pgdata=".toList ++ pgData,
    "--format=t".toList, "--gzip".toList, "--progress".toList]
  match backupManifest with
  | some m => args ++ ["--incremental=".toList ++ m]
  | none => args

/-- The steps of a run, in order, with what each returned. -/
inductive Event where
  | createBackupFolder
  | getMetadata (key : Str) (result : Option Metadata)
  | downloadFile (objectKey localPath : Str) (err : Option Str)
  | runCommand (args : List Str) (snapshot : Option Str)
  | uploadFolder (backupFolderPath saveToS3Path : Str) (err : Option Str)
  | setMetadata (key body : Str) (err : Option Str)
  | deleteBackupContents (err : Option Str)
  deriving DecidableEq, Repr

/-- Source `runCommand`: the snapshot name from the clock, the tool invocation, and nil
when the tool fails. -/
def runCommand (cfg : Config) (now : Int) (tool : ToolOutcome) (backupManifest : Option Str)
    (staging : List Str) : Option Str × List Str × Event :=
  let snapshot := snapshotName now
  let pgData := getBackupPath snapshot
  let args := commandArgs cfg pgData backupManifest
  let staging1 := if tool.leavesDir then createPath pgData staging else staging
  match tool.exitErr with
  | some _ => (none, staging1, .runCommand args none)
  | none => (some snapshot, staging1, .runCommand args (some snapshot))

/-- What happens when `deleteBackupContents` runs: the folder cannot be opened, its names
cannot be read, the removal of the item at position `i` fails, or nothing fails. -/
inductive PurgeOutcome where
  | openFails (err : Str)
  | readFails (err : Str)
  | removeFailsAt (i : Nat) (err : Str)
  | ok
  deriving DecidableEq, Repr

/-- The name of a child of a directory: the last element of its path. -/
def baseName (path : Str) : Str := ((splitSep '/' path).getLast?).getD []

/-- Go `os.RemoveAll` on a child of the staging root. -/
def removeAll (fullPath : Str) (staging : List Str) : List Str :=
  staging.filter (fun p => p ≠ fullPath)

/-- The loop of `deleteBackupContents` over the names read, `idx` counting the items: each
item is removed under `backupsPath/<item>`; the loop stops at the first failure. -/
def deleteItems (failAt : Option (Nat × Str)) : Nat → List Str → List Str → Option Str × List Str
  | _, [], staging => (none, staging)
  | idx, item :: rest, staging =>
    let fullPath := Join [backupsPath, item]
    match failAt with
    | some (i, err) =>
      if i = idx then
        (some ("Failed to delete ".toList ++ fullPath ++ ": ".toList ++ err), staging)
      else deleteItems failAt (idx + 1) rest (removeAll fullPath staging)
    | none => deleteItems failAt (idx + 1) rest (removeAll fullPath staging)

/-- Source `deleteBackupContents`: read the names of the children of the staging root and
remove them one by one. -/
def deleteBackupContents (o : PurgeOutcome) (staging : List Str) : Option Str × List Str :=
  match o with
  | .openFails err => (some ("Failed to open folder: ".toList ++ err), staging)
  | .readFails err => (some ("Failed to read folder contents: ".toList ++ err), staging)
  | .removeFailsAt i err => deleteItems (some (i, err)) 0 (staging.map baseName) staging
  | .ok => deleteItems none 0 (staging.map baseName) staging

/-- The state a run works on: the bucket, and the paths of the children of the staging
root. -/
structure World where
  remote : Store
  staging : List Str
  deriving DecidableEq, Repr

/-- The outcomes of the external steps of one run. -/
structure Outcomes where
  metadataFetch : FetchOutcome
  manifestDownload : DownloadOutcome
  now : Int
  tool : ToolOutcome
  walk : List WalkEntry
  metadataPut : Option Str
  purge : PurgeOutcome
  deriving DecidableEq, Repr

/-- The run from the tool invocation on (source `backup`, from `runCommand` to the end). -/
def backupFromTool (cfg : Config) (o : Outcomes) (w : World) (events : List Event)
    (backupManifest : Option Str) : World × List Event :=
  match runCommand cfg o.now o.tool backupManifest w.staging with
  | (none, staging1, ev) => ({ w with staging := staging1 }, events ++ [ev])
  | (some snapshot, staging1, ev) =>
    let backupFolderPath := getBackupPath snapshot
    let saveToS3Path := cfg.REMOTE_FOLDER ++ "/".toList ++ snapshot
    match UploadFolder backupFolderPath saveToS3Path o.walk w.remote with
    | (some err, remote1) =>
      ({ remote := remote1, staging := staging1 },
        events ++ [ev, .uploadFolder backupFolderPath saveToS3Path (some err)])
    | (none, remote1) =>
      let newMetadata : Metadata := { LastSnapshot := some snapshot }
      match SetMetadata cfg o.metadataPut newMetadata remote1 with
      | (some err, remote2) =>
        ({ remote := remote2, staging := staging1 },
          events ++ [ev, .uploadFolder backupFolderPath saveToS3Path none,
            .setMetadata (metadataKey cfg) (marshalMetadata newMetadata) (some err)])
      | (none, remote2) =>
        match deleteBackupContents o.purge staging1 with
        | (perr, staging2) =>
          ({ remote := remote2, staging := staging2 },
            events ++ [ev, .uploadFolder backupFolderPath saveToS3Path none,
              .setMetadata (metadataKey cfg) (marshalMetadata newMetadata) none,
              .deleteBackupContents perr])

/-- Source `backup`, between `mu.Lock()` and the deferred `mu.Unlock()`. -/
def backup (cfg : Config) (o : Outcomes) (w : World) : World × List Event :=
  let metadata := GetMetadata cfg o.metadataFetch w.remote
  let events := [Event.createBackupFolder, .getMetadata (metadataKey cfg) metadata]
  match metadata with
  | some { LastSnapshot := some last } =>
    let objectKey := manifestKey cfg last
    match DownloadFile o.manifestDownload w.remote objectKey
        (getBackupPath "backup_manifest".toList) w.staging with
    | (some err, staging1) =>
      ({ w with staging := staging1 },
        events ++ [.downloadFile objectKey (getBackupPath "backup_manifest".toList) (some err)])
    | (none, staging1) =>
      backupFromTool cfg o { w with staging := staging1 }
        (events ++ [.downloadFile objectKey (getBackupPath "backup_manifest".toList) none])
        (some (getBackupPath "backup_manifest".toList))
  | _ => backupFromTool cfg o w events none

/-- The metadata record in the bucket, as a later `GetMetadata` without transport errors
reads it. -/
def remoteMetadata (cfg : Config) (remote : Store) : Option Metadata :=
  GetMetadata cfg .ok remote

/-- The event is a tool invocation. -/
def Event.isRunCommand : Event → Bool
  | .runCommand _ _ => true
  | _ => false

/-- The event is a tree upload. -/
def Event.isUploadFolder : Event → Bool
  | .uploadFolder _ _ _ => true
  | _ => false

/-- The event is the purge of the staging area. -/
def Event.isPurge : Event → Bool
  | .deleteBackupContents _ => true
  | _ => false

/-- The argument is an incremental-base argument: it starts with `--incremental=`. -/
def isIncrementalArg (a : Str) : Bool := "--incremental=".toList.isPrefixOf a

/-- A file or directory name: not empty, without a separator, and neither `.` nor `..`. -/
def validName (n : Str) : Bool :=
  n ≠ [] && !n.contains '/' && n ≠ ['.'] && n ≠ ['.', '.']

/-- A path `filepath.Walk` hands to the walk function when walking `root`: the root itself,
or the root followed by the names of a descendant. -/
def isWalkPath (root path : Str) : Bool :=
  path == root ||
    ((root ++ ['/']).isPrefixOf path &&
      (splitSep '/' (path.drop (root.length + 1))).all validName)

/-- The tree upload of the run returned nil. -/
def Event.isUploadOk : Event → Bool
  | .uploadFolder _ _ none => true
  | _ => false

/-- The tree upload of the run returned an error. -/
def Event.isUploadFailed : Event → Bool
  | .uploadFolder _ _ (some _) => true
  | _ => false

/-- The metadata write of the run returned nil. -/
def Event.isSetMetadataOk : Event → Bool
  | .setMetadata _ _ none => true
  | _ => false

/-- A character `json.Marshal` writes as it is and the string scanner reads as it is. -/
def plainChar (c : Char) : Prop :=
  encodeChar c = [c] ∧ c ≠ '"' ∧ c ≠ '\\' ∧ ¬ c.toNat < 0x20

/-- An element `Clean` writes and never removes on its own account. -/
def realElem (e : Str) : Prop := e ≠ [] ∧ e ≠ ['.'] ∧ e ≠ ['.', '.']

/-- The tree upload of the run returned nil. -/
def uploadSucceeded (events : List Event) : Bool := events.any Event.isUploadOk

/-- The tree upload of the run returned an error. -/
def uploadFailed (events : List Event) : Bool := events.any Event.isUploadFailed

/-- The metadata write of the run returned nil. -/
def metadataWritten (events : List Event) : Bool := events.any Event.isSetMetadataOk

/-! ## Schedule validation -/

/-- Go `time.Minute`, in nanoseconds. -/
def Minute : Int := 60 * 1000000000

/-- Go `time.Hour`, in nanoseconds. -/
def Hour : Int := 60 * Minute

/-- Go `time.Time.Sub` on instants in nanoseconds: the difference, saturated to the range
of `time.Duration` (an `int64`). -/
def timeSub (t u : Int) : Int :=
  if t - u > 2 ^ 63 - 1 then 2 ^ 63 - 1
  else if t - u < -(2 ^ 63) then -(2 ^ 63)
  else t - u

/-- A parsed recurrence (`cron.Schedule`): the next activation strictly after an instant. -/
structure Schedule where
  Next : Int → Int

/-- Source `validateCronExpression`, over the parser of the cron library and the clock. -/
def validateCronExpression (parseStandard : Str → Except Str Schedule) (now : Int)
    (cronExpr : Str) : Startup :=
  match parseStandard cronExpr with
  | .error err => .fatal err
  | .ok schedule =>
    let next := schedule.Next now
    let nextAfter := schedule.Next next
    let interval := timeSub nextAfter next
    if interval < 5 * Minute ∧ interval > 24 * Hour then
      .fatal "The schedule must be between 5 minutes and 24 hours.".toList
    else .returns

/-- The interval `validateCronExpression` computes for a schedule: the gap between its
first two occurrences after `now`. -/
def scheduleInterval (schedule : Schedule) (now : Int) : Int :=
  timeSub (schedule.Next (schedule.Next now)) (schedule.Next now)

/-- The schedule that fires at every multiple of `period` nanoseconds (UTC). -/
def everyPeriod (period : Int) : Schedule where
  Next := fun t => (t / period + 1) * period

/-- A parser that reads `* * * * *` as the every-minute schedule and `0 */2 * * *` as the
every-two-hours schedule, and rejects everything else. -/
def parseSample (expr : Str) : Except Str Schedule :=
  if expr = "* * * * *".toList then .ok (everyPeriod Minute)
  else if expr = "0 */2 * * *".toList then .ok (everyPeriod (2 * Hour))
  else .error "expected exactly 5 fields".toList

/-! ## The run lock -/

/-- Where an invocation of `backup` is: at `mu.Lock()`, between `mu.Lock()` and the deferred
`mu.Unlock()`, or returned. -/
inductive Invocation where
  | atLock
  | running
  | returned
  deriving DecidableEq, Repr

/-- The process once the scheduler runs: the mutex `mu`, the invocations of `backup` the
triggers have started (one goroutine each), the state they work on, and the steps they
performed, each with the number of its invocation. -/
structure Process where
  mu : Bool
  invocations : List Invocation
  world : World
  log : List (Nat × Event)
  deriving DecidableEq, Repr

/-- A trigger fires: the scheduler starts a goroutine that calls `backup`, which begins
with `mu.Lock()`. -/
def trigger (p : Process) : Process :=
  { p with invocations := p.invocations ++ [.atLock] }

/-- One step of invocation `i`, `none` when it cannot move: `mu.Lock()` returns only when
the mutex is free, and takes it; the holder of the mutex executes the body of `backup` and
releases the mutex on return. -/
def step (cfg : Config) (outcomes : Nat → Outcomes) (p : Process) (i : Nat) : Option Process :=
  match p.invocations[i]? with
  | some .atLock =>
    if p.mu then none
    else some { p with mu := true, invocations := p.invocations.set i .running }
  | some .running =>
    match backup cfg (outcomes i) p.world with
    | (w, events) =>
      some { mu := false, invocations := p.invocations.set i .returned, world := w,
             log := p.log ++ events.map (fun e => (i, e)) }
  | _ => none

/-- An execution: the invocations that move, in order; `none` when one of them cannot. -/
def exec (cfg : Config) (outcomes : Nat → Outcomes) : List Nat → Process → Option Process
  | [], p => some p
  | i :: rest, p =>
    match step cfg outcomes p i with
    | none => none
    | some q => exec cfg outcomes rest q

/-- A run is in progress and a second trigger has fired: invocation 0 holds the mutex,
invocation 1 is at `mu.Lock()`. -/
def runInProgress (w : World) : Process :=
  trigger { mu := true, invocations := [.running], world := w, log := [] }

/-- The steps of a run, marked with the number of the invocation. -/
def tagged (i : Nat) (events : List Event) : List (Nat × Event) := events.map (fun e => (i, e))

/-- The state once the first run has returned and released the mutex. -/
def firstReturned (cfg : Config) (outcomes : Nat → Outcomes) (w : World) : Process :=
  { mu := false, invocations := [.returned, .atLock], world := (backup cfg (outcomes 0) w).1,
    log := tagged 0 (backup cfg (outcomes 0) w).2 }

/-- The state once the second invocation has taken the mutex. -/
def secondRunning (cfg : Config) (outcomes : Nat → Outcomes) (w : World) : Process :=
  { firstReturned cfg outcomes w with mu := true, invocations := [.returned, .running] }

/-- The state once both runs have returned: the second run worked on the state the first
one left. -/
def bothReturned (cfg : Config) (outcomes : Nat → Outcomes) (w : World) : Process :=
  { mu := false, invocations := [.returned, .returned],
    world := (backup cfg (outcomes 1) (backup cfg (outcomes 0) w).1).1,
    log := tagged 0 (backup cfg (outcomes 0) w).2 ++
      tagged 1 (backup cfg (outcomes 1) (backup cfg (outcomes 0) w).1).2 }

/-! ## Sample configuration and outcomes -/

/-- A configuration with a clean remote folder. -/
def sampleConfig : Config where
  DB_HOST := "db".toList
  DB_PORT := "5432".toList
  REMOTE_FOLDER := "backups".toList
  S3_ACCESS_KEY := "key".toList
  S3_BUCKET_NAME := "bucket".toList
  S3_ENDPOINT := "https://s3.example".toList
  S3_REGION := "eu".toList
  S3_SECRET_KEY := "secret".toList
  SCHEDULE := "0 */2 * * *".toList
  POSTGRES_PASSWORD := "pw".toList
  POSTGRES_USER := "postgres".toList

/-- The walk of a snapshot directory that holds `base.tar.gz` and `backup_manifest`, the
upload of the manifest doing what `manifestUpload` says. -/
def sampleWalk (snapshot : Str) (manifestUpload : UploadOutcome) : List WalkEntry :=
  [{ path := getBackupPath snapshot, isDir := true, walkErr := none, body := [], upload := .ok },
   { path := getBackupPath snapshot ++ "/backup_manifest".toList, isDir := false,
     walkErr := none, body := "manifest".toList, upload := manifestUpload },
   { path := getBackupPath snapshot ++ "/base.tar.gz".toList, isDir := false,
     walkErr := none, body := "base".toList, upload := .ok }]

/-- A run at clock `now` in which every external step succeeds. -/
def goodRun (now : Int) : Outcomes where
  metadataFetch := .ok
  manifestDownload := .ok
  now := now
  tool := { exitErr := none, leavesDir := true }
  walk := sampleWalk (snapshotName now) .ok
  metadataPut := none
  purge := .ok

/-- A run at clock `now` in which the upload of the manifest fails. -/
def uploadFailsRun (now : Int) : Outcomes :=
  { goodRun now with walk := sampleWalk (snapshotName now) (.putFails "timeout".toList) }

/-- A run at clock `now` in which the metadata write fails. -/
def metadataPutFailsRun (now : Int) : Outcomes :=
  { goodRun now with metadataPut := some "timeout".toList }

/-- A run at clock `now` in which the manifest download fails in transport. -/
def downloadFailsRun (now : Int) : Outcomes :=
  { goodRun now with manifestDownload := .fetchFails "timeout".toList }

/-- A bucket after a first successful run at clock 1. -/
def afterFirstRun : World := (backup sampleConfig (goodRun 1) { remote := [], staging := [] }).1

/-- The sample configuration with `REMOTE_FOLDER=./backups`. -/
def dotConfig : Config := { sampleConfig with REMOTE_FOLDER := "./backups".toList }

/-- The state after a first, fully successful run at clock 1 under `dotConfig`. -/
def afterFirstDotRun : World := (backup dotConfig (goodRun 1) { remote := [], staging := [] }).1

/-- A walked file whose upload does what `upload` says. -/
def sampleFile (path body : Str) (upload : UploadOutcome) : WalkEntry :=
  { path := path, isDir := false, walkErr := none, body := body, upload := upload }

/-- A walked directory. -/
def sampleDir (path : Str) : WalkEntry :=
  { path := path, isDir := true, walkErr := none, body := [], upload := .ok }

/-- Outcomes for the invocations of a sample execution: invocation `i` runs at clock `i + 1`
and every external step succeeds. -/
def sampleOutcomes (i : Nat) : Outcomes := goodRun (i + 1)
/-! # Theorems -/

/-! ## Lemmas on trimming -/

theorem trimFunc_eq_nil_iff (p : Char → Bool) (s : Str) :
    trimFunc p s = [] ↔ ∀ c ∈ s.dropWhile p, p c = true := by
  unfold trimFunc
  rw [List.rdropWhile_eq_nil_iff]

theorem dropWhile_all_iff (p : Char → Bool) (s : Str) :
    (∀ c ∈ s.dropWhile p, p c = true) ↔ ∀ c ∈ s, p c = true := by
  constructor
  · intro h
    have h0 : s.dropWhile p = [] := by
      by_contra hne
      have hhd := List.head_dropWhile_not p s hne
      have := h _ (List.head_mem hne)
      simp [this] at hhd
    intro c hc
    exact (List.dropWhile_eq_nil_iff.mp h0) c hc
  · intro h c hc
    exact h c ((List.dropWhile_sublist p).subset hc)

theorem trimFunc_nil_iff_all (p : Char → Bool) (s : Str) :
    trimFunc p s = [] ↔ s.all p = true := by
  rw [trimFunc_eq_nil_iff, dropWhile_all_iff, List.all_eq_true]

theorem getEnv_eq_nil_iff (env : Environ) (name : Str) :
    getEnv env name = [] ↔ normalisesToEmpty (env name) = true := by
  unfold getEnv normalisesToEmpty trim
  simp only
  rw [trimFunc_nil_iff_all]
  simp [List.all_eq_true]

theorem noEmptyValues_fatal_iff (vs : List Str) :
    noEmptyValues vs ≠ .returns ↔ ∃ v ∈ vs, v = [] := by
  induction vs with
  | nil => simp [noEmptyValues]
  | cons v rest ih =>
    unfold noEmptyValues
    by_cases hv : v = []
    · simp [hv]
    · simp [hv, ih]

theorem noEmptyValues_cases (vs : List Str) :
    noEmptyValues vs = .returns ∨
      noEmptyValues vs = .fatal "Environment variables cannot be empty.".toList := by
  induction vs with
  | nil => simp [noEmptyValues]
  | cons v rest ih =>
    unfold noEmptyValues
    by_cases hv : v = []
    · simp [hv]
    · simpa [hv] using ih

/-! ## C9: the start-up configuration check -/

/-- C9 (as stated, refuted): with `DB_HOST=/` and every other setting `x`, no raw value is
empty or white space only, and start-up still terminates the process. -/
theorem startup_blank_iff_counterexample :
    (∀ n ∈ settingNames, isBlank (slashEnv n) = false) ∧
      startup slashEnv = .fatal "Environment variables cannot be empty.".toList := by
  decide

/-- C9 (amended): start-up terminates the process exactly when some setting's raw value, with
surrounding white space removed, is empty or made of slashes only; otherwise
`noEmptyValues` returns. -/
theorem startup_fatal_iff (env : Environ) :
    (startup env = .fatal "Environment variables cannot be empty.".toList ↔
      ∃ n ∈ settingNames, normalisesToEmpty (env n) = true) ∧
    (startup env = .returns ↔ ∀ n ∈ settingNames, normalisesToEmpty (env n) = false) := by
  have key : startup env ≠ .returns ↔ ∃ n ∈ settingNames, normalisesToEmpty (env n) = true := by
    unfold startup checkConfig
    rw [noEmptyValues_fatal_iff]
    simp only [loadConfig, settingNames, List.mem_cons, List.mem_singleton, exists_eq_or_imp,
      exists_eq_left, getEnv_eq_nil_iff, List.not_mem_nil, false_and, exists_false, or_false,
      List.mem_nil_iff]
  have hc := noEmptyValues_cases [(loadConfig env).DB_HOST, (loadConfig env).DB_PORT,
    (loadConfig env).REMOTE_FOLDER, (loadConfig env).S3_ACCESS_KEY,
    (loadConfig env).S3_BUCKET_NAME, (loadConfig env).S3_ENDPOINT, (loadConfig env).S3_REGION,
    (loadConfig env).S3_SECRET_KEY, (loadConfig env).SCHEDULE,
    (loadConfig env).POSTGRES_PASSWORD, (loadConfig env).POSTGRES_USER]
  change startup env = _ ∨ startup env = _ at hc
  constructor
  · rw [← key]
    rcases hc with h | h <;> simp [h]
  · have : (∀ n ∈ settingNames, normalisesToEmpty (env n) = false) ↔
        ¬ ∃ n ∈ settingNames, normalisesToEmpty (env n) = true := by
      simp
    rw [this, ← key]
    simp

/-! ## C5: schedule validation -/

theorem timeSub_not_both (t u : Int) :
    ¬ (timeSub t u < 5 * Minute ∧ timeSub t u > 24 * Hour) := by
  unfold Hour Minute
  omega

/-- Once the expression parses, `validateCronExpression` returns, whatever the interval. -/
theorem validateCronExpression_returns (parseStandard : Str → Except Str Schedule) (now : Int)
    (cronExpr : Str) (schedule : Schedule) (h : parseStandard cronExpr = .ok schedule) :
    validateCronExpression parseStandard now cronExpr = .returns := by
  unfold validateCronExpression
  rw [h]
  simp only [timeSub_not_both, if_false]

theorem everyPeriod_interval (period : Int) (hp : 0 < period) (hb : period ≤ 2 ^ 63 - 1)
    (now : Int) : scheduleInterval (everyPeriod period) now = period := by
  unfold scheduleInterval everyPeriod
  simp only
  have h1 : (now / period + 1) * period / period = now / period + 1 :=
    Int.mul_ediv_cancel _ (ne_of_gt hp)
  rw [h1]
  have h2 : (now / period + 1 + 1) * period - (now / period + 1) * period = period := by ring
  unfold timeSub
  rw [h2]
  have h3 : ¬ period > 2 ^ 63 - 1 := by omega
  have h4 : ¬ period < -(2 ^ 63) := by omega
  simp only [h3, h4, if_false]

/-- C5 (the code at the failing input): at every instant the expression `* * * * *` has a
one-minute interval, below the five-minute floor, and `validateCronExpression` returns
instead of terminating the process. -/
theorem validateCronExpression_one_minute_accepted (now : Int) :
    scheduleInterval (everyPeriod Minute) now = Minute ∧ Minute < 5 * Minute ∧
      validateCronExpression parseSample now "* * * * *".toList = .returns := by
  refine ⟨everyPeriod_interval Minute (by decide) (by decide) now, by decide, ?_⟩
  exact validateCronExpression_returns parseSample now _ (everyPeriod Minute) (by simp [parseSample])

/-! ## C4: full and incremental invocations of the tool -/

theorem commandArgs_none_not_incremental (cfg : Config) (pgData : Str) :
    ∀ a ∈ commandArgs cfg pgData none, isIncrementalArg a = false := by
  intro a ha
  simp only [commandArgs, List.mem_cons, List.mem_singleton, List.not_mem_nil, or_false] at ha
  rcases ha with h | h | h | h | h | h | h <;> subst h <;> rfl

theorem commandArgs_some (cfg : Config) (pgData m : Str) :
    commandArgs cfg pgData (some m) =
      commandArgs cfg pgData none ++ ["--incremental=".toList ++ m] := rfl

theorem commandArgs_some_incremental (cfg : Config) (pgData m a : Str)
    (ha : a ∈ commandArgs cfg pgData (some m)) (hi : isIncrementalArg a = true) :
    a = "--incremental=".toList ++ m := by
  rw [commandArgs_some, List.mem_append, List.mem_singleton] at ha
  rcases ha with h | h
  · rw [commandArgs_none_not_incremental cfg pgData a h] at hi
    exact absurd hi (by simp)
  · exact h

/-- The events of the run from the tool invocation on: the events so far, then the tool
invocation with the arguments for the resolved manifest, then events that are not tool
invocations. -/
theorem backupFromTool_events (cfg : Config) (o : Outcomes) (w : World) (events : List Event)
    (m : Option Str) :
    ∃ snap rest, (backupFromTool cfg o w events m).2 =
        events ++ Event.runCommand (commandArgs cfg (getBackupPath (snapshotName o.now)) m) snap
          :: rest ∧ ∀ e ∈ rest, e.isRunCommand = false := by
  unfold backupFromTool runCommand
  cases o.tool.exitErr with
  | some err => exact ⟨none, [], rfl, by simp⟩
  | none =>
    simp only
    cases hU : UploadFolder (getBackupPath (snapshotName o.now))
        (cfg.REMOTE_FOLDER ++ "/".toList ++ snapshotName o.now) o.walk w.remote with
    | mk uerr remote1 =>
      cases uerr with
      | some err => exact ⟨_, _, rfl, by simp [Event.isRunCommand]⟩
      | none =>
        simp only
        cases hS : SetMetadata cfg o.metadataPut { LastSnapshot := some (snapshotName o.now) }
            remote1 with
        | mk serr remote2 =>
          cases serr with
          | some err => exact ⟨_, _, rfl, by simp [Event.isRunCommand]⟩
          | none => exact ⟨_, _, rfl, by simp [Event.isRunCommand]⟩

theorem runCommand_mem_shape (pre rest : List Event) (A args : List Str) (S snap : Option Str)
    (hpre : ∀ e ∈ pre, e.isRunCommand = false) (hrest : ∀ e ∈ rest, e.isRunCommand = false)
    (h : Event.runCommand args snap ∈ pre ++ Event.runCommand A S :: rest) : args = A := by
  rw [List.mem_append, List.mem_cons] at h
  rcases h with h | h | h
  · exact absurd (hpre _ h) (by simp [Event.isRunCommand])
  · injection h
  · exact absurd (hrest _ h) (by simp [Event.isRunCommand])

theorem backup_of_no_snapshot (cfg : Config) (o : Outcomes) (w : World)
    (h : GetMetadata cfg o.metadataFetch w.remote = none ∨
      GetMetadata cfg o.metadataFetch w.remote = some { LastSnapshot := none }) :
    backup cfg o w = backupFromTool cfg o w
      [Event.createBackupFolder,
        .getMetadata (metadataKey cfg) (GetMetadata cfg o.metadataFetch w.remote)] none := by
  unfold backup
  rcases h with h | h <;> rw [h]

theorem backup_of_snapshot (cfg : Config) (o : Outcomes) (w : World) (last : Str)
    (h : GetMetadata cfg o.metadataFetch w.remote = some { LastSnapshot := some last }) :
    backup cfg o w =
      match DownloadFile o.manifestDownload w.remote (manifestKey cfg last)
          (getBackupPath "backup_manifest".toList) w.staging with
      | (some err, staging1) =>
        ({ w with staging := staging1 },
          [Event.createBackupFolder,
            .getMetadata (metadataKey cfg) (some { LastSnapshot := some last }),
            .downloadFile (manifestKey cfg last) (getBackupPath "backup_manifest".toList)
              (some err)])
      | (none, staging1) =>
        backupFromTool cfg o { w with staging := staging1 }
          [Event.createBackupFolder,
            .getMetadata (metadataKey cfg) (some { LastSnapshot := some last }),
            .downloadFile (manifestKey cfg last) (getBackupPath "backup_manifest".toList) none]
          (some (getBackupPath "backup_manifest".toList)) := by
  unfold backup
  rw [h]
  rfl

/-- C4: when `GetMetadata` returns nil or a record without a last snapshot, the run reaches
the tool invocation and no argument passed to the tool starts with `--incremental=`; and in
every run an argument that starts with `--incremental=` is `--incremental=` followed by the
manifest path, the metadata named a last snapshot and the download of its manifest
succeeded. -/
theorem backup_incremental_arg (cfg : Config) (o : Outcomes) (w : World) :
    (GetMetadata cfg o.metadataFetch w.remote = none ∨
        GetMetadata cfg o.metadataFetch w.remote = some { LastSnapshot := none } →
      (∃ args snap, Event.runCommand args snap ∈ (backup cfg o w).2) ∧
        ∀ args snap, Event.runCommand args snap ∈ (backup cfg o w).2 →
          ∀ a ∈ args, isIncrementalArg a = false) ∧
    (∀ args snap a, Event.runCommand args snap ∈ (backup cfg o w).2 → a ∈ args →
        isIncrementalArg a = true →
      a = "--incremental=".toList ++ getBackupPath "backup_manifest".toList ∧
      ∃ last, GetMetadata cfg o.metadataFetch w.remote = some { LastSnapshot := some last } ∧
        Event.downloadFile (manifestKey cfg last) (getBackupPath "backup_manifest".toList) none
          ∈ (backup cfg o w).2) := by
  have full : (GetMetadata cfg o.metadataFetch w.remote = none ∨
        GetMetadata cfg o.metadataFetch w.remote = some { LastSnapshot := none }) →
      (∃ args snap, Event.runCommand args snap ∈ (backup cfg o w).2) ∧
        ∀ args snap, Event.runCommand args snap ∈ (backup cfg o w).2 →
          args = commandArgs cfg (getBackupPath (snapshotName o.now)) none := by
    intro h
    rw [backup_of_no_snapshot cfg o w h]
    obtain ⟨S, rest, hev, hrest⟩ := backupFromTool_events cfg o w
      [Event.createBackupFolder,
        .getMetadata (metadataKey cfg) (GetMetadata cfg o.metadataFetch w.remote)] none
    rw [hev]
    refine ⟨⟨commandArgs cfg (getBackupPath (snapshotName o.now)) none, S, by simp⟩, ?_⟩
    intro args snap hmem
    exact runCommand_mem_shape _ rest _ args S snap (by simp [Event.isRunCommand]) hrest hmem
  refine ⟨fun h => ⟨(full h).1, fun args snap hmem a ha => ?_⟩, ?_⟩
  · rw [(full h).2 args snap hmem] at ha
    exact commandArgs_none_not_incremental cfg _ a ha
  · intro args snap a hmem ha hi
    cases hG : GetMetadata cfg o.metadataFetch w.remote with
    | none =>
      rw [(full (Or.inl hG)).2 args snap hmem] at ha
      rw [commandArgs_none_not_incremental cfg _ a ha] at hi
      exact absurd hi (by simp)
    | some md =>
      obtain ⟨ls⟩ := md
      cases ls with
      | none =>
        rw [(full (Or.inr hG)).2 args snap hmem] at ha
        rw [commandArgs_none_not_incremental cfg _ a ha] at hi
        exact absurd hi (by simp)
      | some last =>
        rw [backup_of_snapshot cfg o w last hG] at hmem ⊢
        cases hD : DownloadFile o.manifestDownload w.remote (manifestKey cfg last)
          (getBackupPath "backup_manifest".toList) w.staging with
        | mk derr staging1 =>
          rw [hD] at hmem
          cases derr with
          | some err => simp at hmem
          | none =>
            simp only at hmem ⊢
            obtain ⟨S, rest, hev, hrest⟩ := backupFromTool_events cfg o
              { w with staging := staging1 }
              [Event.createBackupFolder,
                .getMetadata (metadataKey cfg) (some { LastSnapshot := some last }),
                .downloadFile (manifestKey cfg last) (getBackupPath "backup_manifest".toList)
                  none]
              (some (getBackupPath "backup_manifest".toList))
            rw [hev] at hmem ⊢
            have hargs := runCommand_mem_shape _ rest _ args S snap
              (by simp [Event.isRunCommand]) hrest hmem
            rw [hargs] at ha
            exact ⟨commandArgs_some_incremental cfg _ _ a ha hi, last, rfl, by simp⟩

/-- C4 at a first run on an empty bucket: the metadata read yields nil, the tool is invoked,
and no argument starts with `--incremental=`. -/
theorem backup_incremental_arg_witness :
    (∃ args snap, Event.runCommand args snap ∈
        (backup sampleConfig (goodRun 1) { remote := [], staging := [] }).2) ∧
      ∀ args snap, Event.runCommand args snap ∈
          (backup sampleConfig (goodRun 1) { remote := [], staging := [] }).2 →
        ∀ a ∈ args, isIncrementalArg a = false :=
  (backup_incremental_arg sampleConfig (goodRun 1) { remote := [], staging := [] }).1
    (Or.inl (by decide))

/-! ## C3: the manifest download comes first -/

/-- C3: when `GetMetadata` returns a record with last snapshot `last`, the run starts with
the staging folder, the metadata read and the download of
`REMOTE_FOLDER/last/backup_manifest`, before any tool invocation; and when that download
fails these are all its steps (no tool invocation, no tree upload) and the bucket, hence the
metadata record, is what it was. -/
theorem backup_manifest_download_first (cfg : Config) (o : Outcomes) (w : World) (last : Str)
    (h : GetMetadata cfg o.metadataFetch w.remote = some { LastSnapshot := some last }) :
    ∃ rest, (backup cfg o w).2 =
        [Event.createBackupFolder,
          .getMetadata (metadataKey cfg) (some { LastSnapshot := some last }),
          .downloadFile (cfg.REMOTE_FOLDER ++ "/".toList ++ last ++ "/backup_manifest".toList)
            (getBackupPath "backup_manifest".toList)
            (DownloadFile o.manifestDownload w.remote
              (cfg.REMOTE_FOLDER ++ "/".toList ++ last ++ "/backup_manifest".toList)
              (getBackupPath "backup_manifest".toList) w.staging).1] ++ rest ∧
      ((DownloadFile o.manifestDownload w.remote
            (cfg.REMOTE_FOLDER ++ "/".toList ++ last ++ "/backup_manifest".toList)
            (getBackupPath "backup_manifest".toList) w.staging).1 ≠ none →
        rest = [] ∧
        (∀ e ∈ (backup cfg o w).2, e.isRunCommand = false ∧ e.isUploadFolder = false) ∧
        (backup cfg o w).1.remote = w.remote ∧
        remoteMetadata cfg (backup cfg o w).1.remote = remoteMetadata cfg w.remote) := by
  rw [backup_of_snapshot cfg o w last h]
  change ∃ rest, _ = [Event.createBackupFolder, _, Event.downloadFile (manifestKey cfg last) _
    (DownloadFile o.manifestDownload w.remote (manifestKey cfg last) _ w.staging).1] ++ rest ∧
    ((DownloadFile o.manifestDownload w.remote (manifestKey cfg last) _ w.staging).1 ≠ none → _)
  cases hD : DownloadFile o.manifestDownload w.remote (manifestKey cfg last)
          (getBackupPath "backup_manifest".toList) w.staging with
  | mk derr staging1 =>
    cases derr with
    | some err =>
      refine ⟨[], by simp, fun _ => ⟨rfl, ?_, rfl, rfl⟩⟩
      simp [Event.isRunCommand, Event.isUploadFolder]
    | none =>
      obtain ⟨S, rest, hev, -⟩ := backupFromTool_events cfg o { w with staging := staging1 }
        [Event.createBackupFolder,
          .getMetadata (metadataKey cfg) (some { LastSnapshot := some last }),
          .downloadFile (manifestKey cfg last) (getBackupPath "backup_manifest".toList) none]
        (some (getBackupPath "backup_manifest".toList))
      simp only
      rw [hev]
      exact ⟨_, rfl, fun hne => absurd rfl hne⟩

/-- C3 at a second run whose manifest download fails in transport: the metadata names
`snapshot-1`, the download of `backups/snapshot-1/backup_manifest` is attempted, and nothing
else happens. -/
theorem backup_manifest_download_first_witness :
    GetMetadata sampleConfig (downloadFailsRun 2).metadataFetch afterFirstRun.remote =
        some { LastSnapshot := some "snapshot-1".toList } ∧
      ∃ rest, (backup sampleConfig (downloadFailsRun 2) afterFirstRun).2 =
        [Event.createBackupFolder,
          .getMetadata (metadataKey sampleConfig) (some { LastSnapshot := some "snapshot-1".toList }),
          .downloadFile (sampleConfig.REMOTE_FOLDER ++ "/".toList ++ "snapshot-1".toList ++
              "/backup_manifest".toList)
            (getBackupPath "backup_manifest".toList)
            (DownloadFile (downloadFailsRun 2).manifestDownload afterFirstRun.remote
              (sampleConfig.REMOTE_FOLDER ++ "/".toList ++ "snapshot-1".toList ++
                "/backup_manifest".toList)
              (getBackupPath "backup_manifest".toList) afterFirstRun.staging).1] ++ rest ∧
      ((DownloadFile (downloadFailsRun 2).manifestDownload afterFirstRun.remote
            (sampleConfig.REMOTE_FOLDER ++ "/".toList ++ "snapshot-1".toList ++
              "/backup_manifest".toList)
            (getBackupPath "backup_manifest".toList) afterFirstRun.staging).1 ≠ none →
        rest = [] ∧
        (∀ e ∈ (backup sampleConfig (downloadFailsRun 2) afterFirstRun).2,
          e.isRunCommand = false ∧ e.isUploadFolder = false) ∧
        (backup sampleConfig (downloadFailsRun 2) afterFirstRun).1.remote =
          afterFirstRun.remote ∧
        remoteMetadata sampleConfig (backup sampleConfig (downloadFailsRun 2) afterFirstRun).1.remote =
          remoteMetadata sampleConfig afterFirstRun.remote) :=
  ⟨by decide, backup_manifest_download_first sampleConfig (downloadFailsRun 2) afterFirstRun
    "snapshot-1".toList (by decide)⟩

/-! ## C2: the staging area after a run -/

/-- The purge of the staging area is a step of the run from the tool invocation on exactly
when the metadata write succeeded. -/
theorem backupFromTool_purge (cfg : Config) (o : Outcomes) (w : World) (events : List Event)
    (m : Option Str) (h1 : events.any Event.isPurge = false)
    (h2 : metadataWritten events = false) :
    (backupFromTool cfg o w events m).2.any Event.isPurge =
      metadataWritten (backupFromTool cfg o w events m).2 := by
  unfold metadataWritten at h2 ⊢
  unfold backupFromTool runCommand
  cases o.tool.exitErr with
  | some err =>
    simp only [List.any_append, List.any_cons, List.any_nil, h1, h2, Event.isPurge,
      Event.isSetMetadataOk]
  | none =>
    simp only
    cases UploadFolder (getBackupPath (snapshotName o.now))
        (cfg.REMOTE_FOLDER ++ "/".toList ++ snapshotName o.now) o.walk w.remote with
    | mk uerr remote1 =>
      cases uerr with
      | some err =>
        simp only [List.any_append, List.any_cons, List.any_nil, h1, h2, Event.isPurge,
          Event.isSetMetadataOk]
      | none =>
        simp only
        unfold SetMetadata
        cases o.metadataPut with
        | some err =>
          simp only [List.any_append, List.any_cons, List.any_nil, h1, h2, Event.isPurge,
            Event.isSetMetadataOk]
        | none =>
          simp only [List.any_append, List.any_cons, List.any_nil, h1, h2, Event.isPurge,
            Event.isSetMetadataOk]
          simp

/-- In every run, `deleteBackupContents` is executed exactly when the metadata write
succeeded: no other exit path purges the staging area. -/
theorem backup_purge_iff_metadataWritten (cfg : Config) (o : Outcomes) (w : World) :
    (backup cfg o w).2.any Event.isPurge = metadataWritten (backup cfg o w).2 := by
  cases hG : GetMetadata cfg o.metadataFetch w.remote with
  | none =>
    rw [backup_of_no_snapshot cfg o w (Or.inl hG)]
    exact backupFromTool_purge cfg o w _ none rfl rfl
  | some md =>
    obtain ⟨ls⟩ := md
    cases ls with
    | none =>
      rw [backup_of_no_snapshot cfg o w (Or.inr hG)]
      exact backupFromTool_purge cfg o w _ none rfl rfl
    | some last =>
      rw [backup_of_snapshot cfg o w last hG]
      cases DownloadFile o.manifestDownload w.remote (manifestKey cfg last)
          (getBackupPath "backup_manifest".toList) w.staging with
      | mk derr staging1 =>
        cases derr with
        | some err => rfl
        | none => exact backupFromTool_purge cfg o _ _ _ rfl rfl

/-- C2 (the code at the failing input): a first run whose tool invocation succeeds and
whose upload of the manifest fails reaches the tool invocation, performs no purge, and
returns with the snapshot directory still in the staging area. -/
theorem backup_upload_failure_leaves_staging :
    (∃ args snap, Event.runCommand args snap ∈
        (backup sampleConfig (uploadFailsRun 1) { remote := [], staging := [] }).2) ∧
      (∀ e ∈ (backup sampleConfig (uploadFailsRun 1) { remote := [], staging := [] }).2,
        e.isPurge = false) ∧
      (backup sampleConfig (uploadFailsRun 1) { remote := [], staging := [] }).1.staging =
        ["/tmp/backups/snapshot-1".toList] := by
  refine ⟨⟨commandArgs sampleConfig (getBackupPath "snapshot-1".toList) none,
    some "snapshot-1".toList, ?_⟩, ?_, ?_⟩
  · decide
  · decide
  · decide

/-! ## C7: the tree upload stops at the first failure -/

theorem walkFn_ok (root pre : Str) (e : WalkEntry) (remote : Store) (h : entryOk e = true) :
    walkFn root pre e remote = (none, (uploadsOf root pre [e]).reverse ++ remote) := by
  obtain ⟨path, isDir, walkErr, body, upload⟩ := e
  simp only [entryOk, Bool.and_eq_true, Option.isNone_iff_eq_none, Bool.or_eq_true,
    beq_iff_eq] at h
  obtain ⟨hw, hu⟩ := h
  subst hw
  cases isDir with
  | true => simp [walkFn, uploadsOf]
  | false =>
    simp only [Bool.false_eq_true, false_or] at hu
    subst hu
    simp [walkFn, uploadsOf, uploadFile, putObject]

theorem uploadsOf_cons (root pre : Str) (e : WalkEntry) (rest : List WalkEntry) :
    uploadsOf root pre (e :: rest) = uploadsOf root pre [e] ++ uploadsOf root pre rest := by
  unfold uploadsOf
  rw [← List.map_append, ← List.filter_append]
  rfl

theorem uploadsOf_append (root pre : Str) (xs ys : List WalkEntry) :
    uploadsOf root pre (xs ++ ys) = uploadsOf root pre xs ++ uploadsOf root pre ys := by
  unfold uploadsOf
  rw [List.filter_append, List.map_append]

theorem walk_ok (root pre : Str) (entries : List WalkEntry) (remote : Store)
    (h : ∀ e ∈ entries, entryOk e = true) :
    walk root pre entries remote = (none, (uploadsOf root pre entries).reverse ++ remote) := by
  induction entries generalizing remote with
  | nil => rfl
  | cons e rest ih =>
    unfold walk
    rw [walkFn_ok root pre e remote (h e (List.mem_cons_self _ _))]
    simp only
    rw [ih _ (fun x hx => h x (List.mem_cons_of_mem _ hx)), uploadsOf_cons root pre e rest,
      List.reverse_append, List.append_assoc]

theorem walkFn_upload_fails (root pre : Str) (f : WalkEntry) (remote : Store)
    (hw : f.walkErr = none) (hd : f.isDir = false) (hu : f.upload ≠ .ok) :
    walkFn root pre f remote =
      (some ("Failed to upload file ".toList ++ f.path ++ ": ".toList ++
        uploadError f.upload f.path), remote) := by
  obtain ⟨path, isDir, walkErr, body, upload⟩ := f
  simp only at hw hd hu
  subst hw hd
  cases upload with
  | ok => exact absurd rfl hu
  | openFails err => rfl
  | statFails err => rfl
  | putFails err => rfl

theorem walk_append_ok (root pre : Str) (xs ys : List WalkEntry) (remote : Store)
    (h : ∀ e ∈ xs, entryOk e = true) :
    walk root pre (xs ++ ys) remote =
      walk root pre ys ((uploadsOf root pre xs).reverse ++ remote) := by
  induction xs generalizing remote with
  | nil => rfl
  | cons e rest ih =>
    rw [List.cons_append, walk, walkFn_ok root pre e remote (h e (List.mem_cons_self _ _))]
    simp only
    rw [ih _ (fun x hx => h x (List.mem_cons_of_mem _ hx)), uploadsOf_cons root pre e rest,
      List.reverse_append, List.append_assoc]

/-- C7: when the entries before `f` raise no error and the upload of the file `f` fails,
`UploadFolder` returns an error that names the path of `f`, and the bucket is the bucket
before the call with exactly the files before `f` added (nothing is removed and nothing
after `f` is uploaded); when no entry raises an error, `UploadFolder` returns nil and the
bucket has every walked file added. -/
theorem UploadFolder_first_failure (backupFolderPath saveToS3Path : Str) (remote : Store) :
    (∀ (before : List WalkEntry) (f : WalkEntry) (after : List WalkEntry),
      (∀ e ∈ before, entryOk e = true) → f.walkErr = none → f.isDir = false →
      f.upload ≠ .ok →
      UploadFolder backupFolderPath saveToS3Path (before ++ f :: after) remote =
        (some ("Failed to upload folder: ".toList ++ ("Failed to upload file ".toList ++
            f.path ++ ": ".toList ++ uploadError f.upload f.path)),
          (uploadsOf backupFolderPath saveToS3Path before).reverse ++ remote)) ∧
    (∀ entries : List WalkEntry, (∀ e ∈ entries, entryOk e = true) →
      UploadFolder backupFolderPath saveToS3Path entries remote =
        (none, (uploadsOf backupFolderPath saveToS3Path entries).reverse ++ remote)) := by
  constructor
  · intro before f after hb hw hd hu
    unfold UploadFolder
    rw [walk_append_ok _ _ _ _ _ hb, walk, walkFn_upload_fails _ _ f _ hw hd hu]
  · intro entries h
    unfold UploadFolder
    rw [walk_ok _ _ _ _ h]

/-- C7 at a snapshot directory whose first file uploads and whose second file fails: the
error names the second file, and only the first file is added to the bucket. -/
theorem UploadFolder_first_failure_witness :
    UploadFolder (getBackupPath "snapshot-1".toList) "backups/snapshot-1".toList
        ([sampleDir (getBackupPath "snapshot-1".toList),
            sampleFile "/tmp/backups/snapshot-1/a".toList "A".toList .ok] ++
          sampleFile "/tmp/backups/snapshot-1/b".toList "B".toList (.putFails "timeout".toList) ::
          [sampleFile "/tmp/backups/snapshot-1/c".toList "C".toList .ok]) [] =
      (some ("Failed to upload folder: Failed to upload file /tmp/backups/snapshot-1/b: " ++
          "Failed to upload file /tmp/backups/snapshot-1/b: timeout").toList,
        [("backups/snapshot-1/a".toList, "A".toList)]) :=
  (UploadFolder_first_failure (getBackupPath "snapshot-1".toList) "backups/snapshot-1".toList
    []).1 _ _ _ (by decide) rfl rfl (by decide)

/-! ## C10: the metadata record survives a write and a read -/

theorem encodeString_plain (s : Str) (hs : ∀ c ∈ s, plainChar c) :
    encodeString s = ['"'] ++ s ++ ['"'] := by
  unfold encodeString
  congr 2
  induction s with
  | nil => rfl
  | cons c rest ih =>
    rw [List.map_cons, List.flatten_cons, (hs c (List.mem_cons_self _ _)).1,
      ih (fun x hx => hs x (List.mem_cons_of_mem _ hx))]
    rfl

theorem scanString_plain (s : Str) (hs : ∀ c ∈ s, plainChar c) (rest acc : Str) (fuel : Nat)
    (hf : s.length < fuel) : scanString fuel (s ++ '"' :: rest) acc = some (acc ++ s, rest) := by
  induction s generalizing fuel acc with
  | nil =>
    obtain ⟨f, rfl⟩ : ∃ f, fuel = f + 1 := ⟨fuel - 1, by simp at hf; omega⟩
    simp [scanString]
  | cons c s ih =>
    obtain ⟨f, rfl⟩ : ∃ f, fuel = f + 1 := ⟨fuel - 1, by simp at hf; omega⟩
    obtain ⟨-, h1, h2, h3⟩ := hs c (List.mem_cons_self _ _)
    rw [List.cons_append, scanString]
    simp only [h1, h2, h3, if_false]
    rw [ih (fun x hx => hs x (List.mem_cons_of_mem _ hx)) _ _ (by simpa using hf)]
    simp

theorem digitChar_plain (d : Nat) (hd : d < 10) : plainChar (Nat.digitChar d) := by
  unfold plainChar
  interval_cases d <;> decide

theorem toDigitsCore_plain (fuel n : Nat) (ds : Str) (hds : ∀ c ∈ ds, plainChar c) :
    ∀ c ∈ Nat.toDigitsCore 10 fuel n ds, plainChar c := by
  induction fuel generalizing n ds with
  | zero => simpa [Nat.toDigitsCore] using hds
  | succ f ih =>
    have hd : plainChar (Nat.digitChar (n % 10)) := digitChar_plain _ (Nat.mod_lt _ (by decide))
    have hcons : ∀ c ∈ Nat.digitChar (n % 10) :: ds, plainChar c := by
      intro c hc
      rcases List.mem_cons.mp hc with h | h
      · rw [h]; exact hd
      · exact hds c h
    unfold Nat.toDigitsCore
    simp only
    split
    · exact hcons
    · exact ih _ _ hcons

theorem fmtInt_plain (i : Int) : ∀ c ∈ fmtInt i, plainChar c := by
  have hn : ∀ n : Nat, ∀ c ∈ fmtNat n, plainChar c := fun n =>
    toDigitsCore_plain _ _ [] (by simp)
  unfold fmtInt
  split
  · intro c hc
    rcases List.mem_cons.mp hc with h | h
    · rw [h]; unfold plainChar; decide
    · exact hn _ c h
  · exact hn _

theorem snapshotName_plain (ts : Int) : ∀ c ∈ snapshotName ts, plainChar c := by
  intro c hc
  unfold snapshotName at hc
  rcases List.mem_append.mp hc with h | h
  · have : ∀ x ∈ "snapshot-".toList, plainChar x := by unfold plainChar; decide
    exact this c h
  · exact fmtInt_plain ts c h

theorem skipWs_cons (c : Char) (r : Str) (h : isJsonSpace c = false) :
    skipWs (c :: r) = c :: r := by
  simp [skipWs, List.dropWhile_cons, h]

theorem parseValue_string (s : Str) (hs : ∀ c ∈ s, plainChar c) (rest : Str) (n : Nat) :
    parseValue (n + 1) ('"' :: (s ++ '"' :: rest)) = some (.str s, rest) := by
  rw [parseValue, skipWs_cons _ _ (by decide)]
  simp only [if_true]
  rw [scanString_plain s hs rest [] _ (by simp)]
  rfl

theorem parseMembers_one (k s : Str) (hk : ∀ c ∈ k, plainChar c) (hs : ∀ c ∈ s, plainChar c)
    (rest : Str) (n : Nat) :
    parseMembers (n + 2) ('"' :: (k ++ '"' :: ':' :: '"' :: (s ++ '"' :: '}' :: rest))) =
      some ([(k, .str s)], rest) := by
  rw [parseMembers, skipWs_cons _ _ (by decide)]
  simp only
  rw [scanString_plain k hk _ [] _ (by simp)]
  simp only [List.nil_append]
  rw [skipWs_cons _ _ (by decide)]
  simp only
  rw [parseValue_string s hs _ n]
  simp only
  rw [skipWs_cons _ _ (by decide)]
  rfl

theorem parseValue_record (s : Str) (hs : ∀ c ∈ s, plainChar c) (n : Nat) :
    parseValue (n + 3) ("\x7b\"lastSnapshot\":\"".toList ++ s ++ "\"\x7d".toList) =
      some (.obj [("lastSnapshot".toList, .str s)], []) := by
  have hkey : ∀ c ∈ "lastSnapshot".toList, plainChar c := by unfold plainChar; decide
  have e1 : "\x7b\"lastSnapshot\":\"".toList ++ s ++ "\"\x7d".toList =
      '{' :: '"' :: ("lastSnapshot".toList ++ '"' :: ':' :: '"' :: (s ++ '"' :: '}' :: [])) := by
    simp
  rw [e1, parseValue, skipWs_cons _ _ (by decide)]
  simp only [if_true]
  rw [skipWs_cons _ _ (by decide), parseMembers_one _ s hkey hs [] n]
  rfl

theorem unmarshal_record (s : Str) (hs : ∀ c ∈ s, plainChar c) :
    unmarshalMetadata ("\x7b\"lastSnapshot\":\"".toList ++ s ++ "\"\x7d".toList) =
      some { LastSnapshot := some s } := by
  unfold unmarshalMetadata parseJson
  obtain ⟨n, hn⟩ : ∃ n, 2 * ("\x7b\"lastSnapshot\":\"".toList ++ s ++ "\"\x7d".toList).length + 2 =
      n + 3 := ⟨2 * ("\x7b\"lastSnapshot\":\"".toList ++ s ++ "\"\x7d".toList).length - 1, by
    simp only [List.length_append]
    have : 0 < "\"\x7d".toList.length := by decide
    omega⟩
  rw [hn, parseValue_record s hs n]
  rfl

theorem marshal_record (s : Str) (hs : ∀ c ∈ s, plainChar c) :
    marshalMetadata { LastSnapshot := some s } =
      "\x7b\"lastSnapshot\":\"".toList ++ s ++ "\"\x7d".toList := by
  unfold marshalMetadata
  simp only
  rw [encodeString_plain s hs]
  simp

theorem getObject_putObject (key body : Str) (remote : Store) :
    getObject (putObject key body remote) key = some body := by
  simp [getObject, putObject, List.lookup]

theorem GetMetadata_SetMetadata (cfg : Config) (remote : Store) (m : Metadata) :
    GetMetadata cfg .ok (SetMetadata cfg none m remote).2 =
      unmarshalMetadata (marshalMetadata m) := by
  unfold GetMetadata SetMetadata
  simp only [getObject_putObject]

/-- C10: for the snapshot identifier of every clock value, `SetMetadata` serialises the
record as the JSON object with the one member `lastSnapshot` and the identifier as its
string value, and `GetMetadata` parses these bytes back to the same record, also through a
write to and a read from the bucket; the record without a last snapshot is serialised with
the value `null` and parsed back to a record without a last snapshot. -/
theorem metadata_round_trip (cfg : Config) (remote : Store) (unixTimestamp : Int) :
    marshalMetadata { LastSnapshot := some (snapshotName unixTimestamp) } =
        "\x7b\"lastSnapshot\":\"".toList ++ snapshotName unixTimestamp ++ "\"\x7d".toList ∧
      unmarshalMetadata (marshalMetadata { LastSnapshot := some (snapshotName unixTimestamp) }) =
        some { LastSnapshot := some (snapshotName unixTimestamp) } ∧
      GetMetadata cfg .ok
          (SetMetadata cfg none { LastSnapshot := some (snapshotName unixTimestamp) } remote).2 =
        some { LastSnapshot := some (snapshotName unixTimestamp) } ∧
      marshalMetadata { LastSnapshot := none } = "\x7b\"lastSnapshot\":null\x7d".toList ∧
      unmarshalMetadata (marshalMetadata { LastSnapshot := none }) =
        some { LastSnapshot := none } ∧
      GetMetadata cfg .ok (SetMetadata cfg none { LastSnapshot := none } remote).2 =
        some { LastSnapshot := none } := by
  have hp := snapshotName_plain unixTimestamp
  have hrt : unmarshalMetadata
      (marshalMetadata { LastSnapshot := some (snapshotName unixTimestamp) }) =
      some { LastSnapshot := some (snapshotName unixTimestamp) } := by
    rw [marshal_record _ hp]
    exact unmarshal_record _ hp
  refine ⟨marshal_record _ hp, hrt, ?_, by decide, by decide, ?_⟩
  · rw [GetMetadata_SetMetadata, hrt]
  · rw [GetMetadata_SetMetadata]
    decide

/-! ## Lemmas on paths -/

theorem splitSep_ne_nil (sep : Char) (s : Str) : splitSep sep s ≠ [] := by
  cases s with
  | nil => simp [splitSep]
  | cons c rest =>
    unfold splitSep
    split
    · simp
    · split <;> simp

theorem splitSep_cons_of_ne (sep c : Char) (rest : Str) (h : c ≠ sep) :
    ∃ x t, splitSep sep rest = x :: t ∧ splitSep sep (c :: rest) = (c :: x) :: t := by
  rw [splitSep, if_neg h]
  have hne := splitSep_ne_nil sep rest
  cases hs : splitSep sep rest with
  | nil => exact absurd hs hne
  | cons a t => exact ⟨a, t, rfl, rfl⟩

theorem splitSep_append_sep (sep : Char) (a b : Str) :
    splitSep sep (a ++ sep :: b) = splitSep sep a ++ splitSep sep b := by
  induction a with
  | nil => simp [splitSep]
  | cons c rest ih =>
    by_cases hc : c = sep
    · simp [splitSep, hc, ih]
    · obtain ⟨x, t, h1, h2⟩ := splitSep_cons_of_ne sep c rest hc
      obtain ⟨y, u, h3, h4⟩ := splitSep_cons_of_ne sep c (rest ++ sep :: b) hc
      rw [List.cons_append, h4, h2]
      rw [ih, h1] at h3
      simp only [List.cons_append, List.cons.injEq] at h3
      rw [← h3.1, ← h3.2]
      rfl

theorem splitSep_of_not_mem (sep : Char) (l : Str) (h : sep ∉ l) : splitSep sep l = [l] := by
  induction l with
  | nil => rfl
  | cons c rest ih =>
    have hc : c ≠ sep := fun e => h (by simp [e])
    have hr : sep ∉ rest := fun e => h (List.mem_cons_of_mem _ e)
    rw [splitSep, if_neg hc, ih hr]

theorem joinSep_splitSep (sep : Char) (s : Str) : joinSep sep (splitSep sep s) = s := by
  induction s with
  | nil => rfl
  | cons c rest ih =>
    by_cases hc : c = sep
    · rw [splitSep, if_pos hc]
      have hne := splitSep_ne_nil sep rest
      cases hs : splitSep sep rest with
      | nil => exact absurd hs hne
      | cons x t =>
        rw [hs] at ih
        simp [joinSep, ih, hc]
    · rw [splitSep, if_neg hc]
      have hne := splitSep_ne_nil sep rest
      cases hs : splitSep sep rest with
      | nil => exact absurd hs hne
      | cons x t =>
        rw [hs] at ih
        cases t with
        | nil => simpa [joinSep] using ih
        | cons y t2 => simpa [joinSep] using ih

theorem mem_splitSep_not_sep (sep : Char) (s : Str) : ∀ l ∈ splitSep sep s, sep ∉ l := by
  induction s with
  | nil => simp [splitSep]
  | cons c rest ih =>
    by_cases hc : c = sep
    · rw [splitSep, if_pos hc]
      intro l hl
      rcases List.mem_cons.mp hl with h | h
      · simp [h]
      · exact ih l h
    · rw [splitSep, if_neg hc]
      have hne := splitSep_ne_nil sep rest
      cases hs : splitSep sep rest with
      | nil => exact absurd hs hne
      | cons x t =>
        rw [hs] at ih
        intro l hl
        rcases List.mem_cons.mp hl with h | h
        · rw [h]
          intro hm
          rcases List.mem_cons.mp hm with h1 | h1
          · exact hc h1.symm
          · exact ih x (List.mem_cons_self _ _) h1
        · exact ih l (List.mem_cons_of_mem _ h)

theorem splitSep_joinSep (sep : Char) (ls : List Str) (hne : ls ≠ [])
    (h : ∀ l ∈ ls, sep ∉ l) : splitSep sep (joinSep sep ls) = ls := by
  induction ls with
  | nil => exact absurd rfl hne
  | cons a rest ih =>
    cases rest with
    | nil => simpa [joinSep] using splitSep_of_not_mem sep a (h a (List.mem_cons_self _ _))
    | cons b t =>
      rw [joinSep, splitSep_append_sep, splitSep_of_not_mem sep a (h a (List.mem_cons_self _ _)),
        ih (by simp) (fun l hl => h l (List.mem_cons_of_mem _ hl))]
      rfl

theorem joinSep_cons (sep : Char) (a : Str) (rest : List Str) (hne : rest ≠ []) :
    joinSep sep (a :: rest) = a ++ sep :: joinSep sep rest := by
  cases rest with
  | nil => exact absurd rfl hne
  | cons b t => rfl

/-! ## Lemmas on `Clean` and the keys of a walk -/

theorem cleanStep_real (r : Bool) (out : List Str) (e : Str) (h : realElem e) :
    cleanStep r out e = e :: out := by
  obtain ⟨h1, h2, h3⟩ := h
  simp [cleanStep, h1, h2, h3]

theorem foldl_cleanStep_real (r : Bool) (es : List Str) (h : ∀ e ∈ es, realElem e) :
    ∀ out, es.foldl (cleanStep r) out = es.reverse ++ out := by
  induction es with
  | nil => intro out; rfl
  | cons e rest ih =>
    intro out
    rw [List.foldl_cons, cleanStep_real r out e (h e (List.mem_cons_self _ _)),
      ih (fun x hx => h x (List.mem_cons_of_mem _ hx))]
    simp

theorem cleanElems_append_real (r : Bool) (X es : List Str) (h : ∀ e ∈ es, realElem e) :
    cleanElems r (X ++ es) = cleanElems r X ++ es := by
  unfold cleanElems
  rw [List.foldl_append, foldl_cleanStep_real r es h]
  simp

theorem cleanElems_append_empty (r : Bool) (X : List Str) :
    cleanElems r (X ++ [[]]) = cleanElems r X := by
  unfold cleanElems
  rw [List.foldl_append]
  simp [cleanStep]

theorem mem_foldl_cleanStep (r : Bool) (L : List Str) :
    ∀ out, ∀ x ∈ L.foldl (cleanStep r) out, x ∈ out ∨ x ∈ L := by
  induction L with
  | nil => intro out x hx; exact Or.inl hx
  | cons e rest ih =>
    intro out x hx
    rw [List.foldl_cons] at hx
    rcases ih _ x hx with h | h
    · have hstep : x ∈ out ∨ x = e := by
        unfold cleanStep at h
        split at h
        · exact Or.inl h
        · split at h
          · split at h
            · split at h
              · rcases List.mem_cons.mp h with h' | h'
                · exact Or.inr h'
                · exact Or.inl h'
              · exact Or.inl (List.mem_cons_of_mem _ h)
            · split at h
              · exact Or.inl h
              · rcases List.mem_cons.mp h with h' | h'
                · exact Or.inr h'
                · exact Or.inl h'
          · rcases List.mem_cons.mp h with h' | h'
            · exact Or.inr h'
            · exact Or.inl h'
      rcases hstep with h' | h'
      · exact Or.inl h'
      · exact Or.inr (by simp [h'])
    · exact Or.inr (List.mem_cons_of_mem _ h)

theorem mem_cleanElems (r : Bool) (L : List Str) : ∀ x ∈ cleanElems r L, x ∈ L := by
  intro x hx
  unfold cleanElems at hx
  rcases mem_foldl_cleanStep r L [] x (List.mem_reverse.mp hx) with h | h
  · simp at h
  · exact h

/-- No list is a proper extension of its own image under a map that commutes with that
extension. -/
theorem no_fixed_extension (g : List Str → List Str) (E : List Str) (hE : E ≠ [])
    (hg : ∀ X, g (X ++ E) = g X ++ E) (C : List Str) : C ≠ g C ++ E := by
  have key : ∀ k : Nat, ∀ X : List Str, X = g X ++ E → k ≤ X.length := by
    intro k
    induction k with
    | zero => intro X _; exact Nat.zero_le _
    | succ k ih =>
      intro X hX
      have h1 : g X = g (g X) ++ E := by
        conv_lhs => rw [hX]
        exact hg (g X)
      have h2 := ih (g X) h1
      have h3 : X.length = (g X).length + E.length := by
        conv_lhs => rw [hX]
        exact List.length_append _ _
      have h4 : 0 < E.length := List.length_pos.mpr hE
      omega
  intro hC
  have := key (C.length + 1) C hC
  omega

theorem validName_real (n : Str) (h : validName n = true) : realElem n ∧ '/' ∉ n := by
  simp only [validName, Bool.and_eq_true, decide_eq_true_eq, Bool.not_eq_true'] at h
  exact ⟨⟨h.1.1.1, h.1.2, h.2⟩, by simpa using h.1.1.2⟩

theorem snapshotName_alphabet (ts : Int) :
    ∀ c ∈ snapshotName ts, c ∈ "snapshot-0123456789".toList := by
  have hd : ∀ d, d < 10 → Nat.digitChar d ∈ "snapshot-0123456789".toList := by
    intro d hd
    interval_cases d <;> decide
  have hcore : ∀ fuel n ds, (∀ c ∈ ds, c ∈ "snapshot-0123456789".toList) →
      ∀ c ∈ Nat.toDigitsCore 10 fuel n ds, c ∈ "snapshot-0123456789".toList := by
    intro fuel
    induction fuel with
    | zero => intro n ds hds; simpa [Nat.toDigitsCore] using hds
    | succ f ih =>
      intro n ds hds
      have hcons : ∀ c ∈ Nat.digitChar (n % 10) :: ds, c ∈ "snapshot-0123456789".toList := by
        intro c hc
        rcases List.mem_cons.mp hc with h | h
        · rw [h]; exact hd _ (Nat.mod_lt _ (by decide))
        · exact hds c h
      unfold Nat.toDigitsCore
      simp only
      split
      · exact hcons
      · exact ih _ _ hcons
  have hn : ∀ n : Nat, ∀ c ∈ fmtNat n, c ∈ "snapshot-0123456789".toList := fun n =>
    hcore _ _ [] (by simp)
  intro c hc
  unfold snapshotName at hc
  rcases List.mem_append.mp hc with h | h
  · have hlit : ∀ x ∈ "snapshot-".toList, x ∈ "snapshot-0123456789".toList := by decide
    exact hlit c h
  · unfold fmtInt at h
    split at h
    · rcases List.mem_cons.mp h with h1 | h1
      · rw [h1]; decide
      · exact hn _ c h1
    · exact hn _ c h

theorem snapshotName_real (ts : Int) :
    realElem (snapshotName ts) ∧ '/' ∉ snapshotName ts ∧
      snapshotName ts ≠ "metadata.json".toList := by
  have hhead : ∃ t, snapshotName ts = 's' :: t := ⟨_, rfl⟩
  obtain ⟨t, ht⟩ := hhead
  refine ⟨⟨?_, ?_, ?_⟩, ?_, ?_⟩
  · rw [ht]; simp
  · rw [ht]; simp
  · rw [ht]; simp
  · intro hm
    have := snapshotName_alphabet ts _ hm
    revert this
    decide
  · rw [ht]; simp

theorem Clean_of_elems (P : Str) (out : List Str) (hP : P ≠ [])
    (hout : cleanElems (decide (P.head? = some '/')) (splitSep '/' P) = out)
    (hne : out ≠ []) :
    Clean P = if P.head? = some '/' then '/' :: joinSep '/' out else joinSep '/' out := by
  unfold Clean
  simp only [hP, if_false, hout, hne]

/-- The key of a file below the prefix `R/<snapshot>` is not the metadata key of `R`. -/
theorem Clean_ne_metadataKey (R snap rel : Str) (hsnap : realElem snap) (hslash : '/' ∉ snap)
    (hmeta : snap ≠ "metadata.json".toList)
    (hrel : rel = [] ∨ ∀ n ∈ splitSep '/' rel, validName n = true) :
    Clean (R ++ '/' :: (snap ++ '/' :: rel)) ≠ R ++ '/' :: "metadata.json".toList := by
  -- the elements the key keeps after those of `R`
  obtain ⟨T, hT, hTvalid⟩ : ∃ T : List Str,
      (∀ r, cleanElems r (splitSep '/' R ++ ([snap] ++ splitSep '/' rel)) =
        cleanElems r (splitSep '/' R) ++ snap :: T) ∧ ∀ n ∈ T, validName n = true := by
    rcases hrel with h | h
    · refine ⟨[], fun r => ?_, by simp⟩
      rw [h]
      have : splitSep '/' R ++ ([snap] ++ splitSep '/' []) = (splitSep '/' R ++ [snap]) ++ [[]] := by
        simp [splitSep]
      rw [this, cleanElems_append_empty, cleanElems_append_real r _ [snap] (by simpa using hsnap)]
    · refine ⟨splitSep '/' rel, fun r => ?_, h⟩
      rw [cleanElems_append_real r _ ([snap] ++ splitSep '/' rel)]
      · rfl
      · intro e he
        rcases List.mem_append.mp he with h1 | h1
        · rw [List.mem_singleton.mp h1]; exact hsnap
        · exact (validName_real e (h e h1)).1
  have hsplit : splitSep '/' (R ++ '/' :: (snap ++ '/' :: rel)) =
      splitSep '/' R ++ ([snap] ++ splitSep '/' rel) := by
    rw [splitSep_append_sep, splitSep_append_sep, splitSep_of_not_mem '/' snap hslash]
  have hP : R ++ '/' :: (snap ++ '/' :: rel) ≠ [] := by simp
  have hout := hT (decide ((R ++ '/' :: (snap ++ '/' :: rel)).head? = some '/'))
  rw [← hsplit] at hout
  have hne : cleanElems (decide ((R ++ '/' :: (snap ++ '/' :: rel)).head? = some '/'))
      (splitSep '/' R) ++ snap :: T ≠ [] := by simp
  rw [Clean_of_elems _ _ hP hout hne]
  generalize decide ((R ++ '/' :: (snap ++ '/' :: rel)).head? = some '/') = r at hout hne
  intro hEq
  -- the elements of both sides
  have hfree : ∀ l ∈ cleanElems r (splitSep '/' R) ++ snap :: T, '/' ∉ l := by
    intro l hl
    rcases List.mem_append.mp hl with h | h
    · exact mem_splitSep_not_sep '/' R l (mem_cleanElems r _ l h)
    · rcases List.mem_cons.mp h with h1 | h1
      · rw [h1]; exact hslash
      · exact (validName_real l (hTvalid l h1)).2
  have hrhs : splitSep '/' (R ++ '/' :: "metadata.json".toList) =
      splitSep '/' R ++ ["metadata.json".toList] := by
    rw [splitSep_append_sep, splitSep_of_not_mem '/' "metadata.json".toList (by decide)]
  obtain ⟨pre, hpre⟩ : ∃ pre : List Str,
      pre ++ (cleanElems r (splitSep '/' R) ++ snap :: T) =
        splitSep '/' R ++ ["metadata.json".toList] := by
    by_cases hr : (R ++ '/' :: (snap ++ '/' :: rel)).head? = some '/'
    · rw [if_pos hr] at hEq
      refine ⟨[[]], ?_⟩
      rw [← hrhs, ← hEq]
      have : '/' :: joinSep '/' (cleanElems r (splitSep '/' R) ++ snap :: T) =
          [] ++ '/' :: joinSep '/' (cleanElems r (splitSep '/' R) ++ snap :: T) := rfl
      rw [this, splitSep_append_sep, splitSep_joinSep '/' _ hne hfree]
      rfl
    · rw [if_neg hr] at hEq
      refine ⟨[], ?_⟩
      rw [← hrhs, ← hEq, splitSep_joinSep '/' _ hne hfree]
      rfl
  -- compare the last elements
  rcases List.eq_nil_or_concat T with hTnil | ⟨init, last, hTc⟩
  · rw [hTnil] at hpre
    have h1 : (pre ++ cleanElems r (splitSep '/' R)) ++ [snap] =
        splitSep '/' R ++ ["metadata.json".toList] := by
      rw [← hpre]; simp
    have h2 := (List.append_inj' h1 rfl).2
    exact hmeta (by simpa using h2)
  · rw [hTc] at hpre
    have h1 : (pre ++ cleanElems r (splitSep '/' R) ++ snap :: init) ++ [last] =
        splitSep '/' R ++ ["metadata.json".toList] := by
      rw [← hpre]; simp
    have h2 := (List.append_inj' h1 rfl).1
    have hE : ∀ e ∈ snap :: init, realElem e := by
      intro e he
      rcases List.mem_cons.mp he with h | h
      · rw [h]; exact hsnap
      · exact (validName_real e (hTvalid e (by rw [hTc]; simp [h]))).1
    refine no_fixed_extension (fun X => pre ++ cleanElems r X) (snap :: init) (by simp) ?_
      (splitSep '/' R) ?_
    · intro X
      simp only
      rw [cleanElems_append_real r X _ hE, List.append_assoc]
    · exact h2.symm

/-! ## C1: when the metadata record changes -/

theorem trimPrefix_self_append (pre s : Str) : trimPrefix (pre ++ s) pre = s := by
  unfold trimPrefix
  have h : pre.isPrefixOf (pre ++ s) = true := by
    rw [List.isPrefixOf_iff_prefix]
    exact List.prefix_append _ _
  rw [if_pos h]
  simp

theorem s3KeyOf_walkPath (root pre path : Str) (hpre : pre ≠ [])
    (hw : isWalkPath root path = true) :
    ∃ rel, (rel = [] ∨ ∀ n ∈ splitSep '/' rel, validName n = true) ∧
      s3KeyOf root pre path = Clean (pre ++ '/' :: rel) := by
  have hjoin : ∀ rel : Str, Join [pre, rel] = Clean (pre ++ '/' :: rel) := by
    intro rel
    unfold Join
    rw [List.dropWhile_cons_of_neg (by simpa using hpre)]
    rfl
  unfold isWalkPath at hw
  rcases Bool.or_eq_true_iff.mp hw with h | h
  · have hp : path = root := by simpa using h
    refine ⟨[], Or.inl rfl, ?_⟩
    unfold s3KeyOf
    simp only
    have h1 : trimPrefix path root = [] := by
      have := trimPrefix_self_append root []
      rw [List.append_nil] at this
      rw [hp, this]
    rw [h1]
    exact hjoin _
  · obtain ⟨h1, h2⟩ := Bool.and_eq_true_iff.mp h
    rw [List.isPrefixOf_iff_prefix] at h1
    obtain ⟨t, ht⟩ := h1
    have hdrop : path.drop (root.length + 1) = t := by
      rw [← ht]
      have : (root ++ ['/']).length = root.length + 1 := by simp
      rw [← this, List.drop_left]
    rw [hdrop] at h2
    refine ⟨t, Or.inr (by simpa using h2), ?_⟩
    unfold s3KeyOf
    simp only
    have e1 : trimPrefix path root = '/' :: t := by
      rw [← ht, List.append_assoc]
      exact trimPrefix_self_append root _
    have e2 : trimPrefix ('/' :: t) ['/'] = t := trimPrefix_self_append ['/'] t
    rw [e1, e2]
    exact hjoin _

theorem walkFn_store (root pre : Str) (e : WalkEntry) (remote : Store) :
    (walkFn root pre e remote).2 = remote ∨
      (walkFn root pre e remote).2 = (s3KeyOf root pre e.path, e.body) :: remote := by
  obtain ⟨path, isDir, walkErr, body, upload⟩ := e
  cases walkErr with
  | some err => exact Or.inl rfl
  | none =>
    cases isDir with
    | true => exact Or.inl rfl
    | false =>
      cases upload with
      | ok => exact Or.inr rfl
      | openFails err => exact Or.inl rfl
      | statFails err => exact Or.inl rfl
      | putFails err => exact Or.inl rfl

/-- The bucket after the walk: the bucket before it, with objects added under keys of
walked paths. -/
theorem walk_store (root pre : Str) (entries : List WalkEntry) :
    ∀ remote, ∃ ups : Store, (walk root pre entries remote).2 = ups ++ remote ∧
      ∀ kv ∈ ups, ∃ e ∈ entries, kv.1 = s3KeyOf root pre e.path := by
  induction entries with
  | nil => intro remote; exact ⟨[], rfl, by simp⟩
  | cons e rest ih =>
    intro remote
    have hfn := walkFn_store root pre e remote
    unfold walk
    cases hres : walkFn root pre e remote with
    | mk err remote1 =>
      rw [hres] at hfn
      simp only at hfn
      have hstep : ∃ ups1 : Store, remote1 = ups1 ++ remote ∧
          ∀ kv ∈ ups1, kv.1 = s3KeyOf root pre e.path := by
        rcases hfn with h | h
        · exact ⟨[], by simpa using h, by simp⟩
        · exact ⟨[(s3KeyOf root pre e.path, e.body)], by simpa using h, by simp⟩
      obtain ⟨ups1, h1, h1k⟩ := hstep
      cases err with
      | some msg =>
        refine ⟨ups1, h1, fun kv hkv => ⟨e, List.mem_cons_self _ _, h1k kv hkv⟩⟩
      | none =>
        obtain ⟨ups2, h2, h2k⟩ := ih remote1
        refine ⟨ups2 ++ ups1, ?_, ?_⟩
        · simp only
          rw [h2, h1, List.append_assoc]
        · intro kv hkv
          rcases List.mem_append.mp hkv with h | h
          · obtain ⟨x, hx, hk⟩ := h2k kv h
            exact ⟨x, List.mem_cons_of_mem _ hx, hk⟩
          · exact ⟨e, List.mem_cons_self _ _, h1k kv h⟩

theorem getObject_append_of_ne (ups remote : Store) (key : Str)
    (h : ∀ kv ∈ ups, kv.1 ≠ key) : getObject (ups ++ remote) key = getObject remote key := by
  induction ups with
  | nil => rfl
  | cons kv rest ih =>
    obtain ⟨k, v⟩ := kv
    have hk : k ≠ key := h (k, v) (List.mem_cons_self _ _)
    have hb : (key == k) = false := by
      rw [beq_eq_false_iff_ne]
      exact fun e => hk e.symm
    unfold getObject at ih ⊢
    rw [List.cons_append, List.lookup_cons, hb]
    exact ih (fun x hx => h x (List.mem_cons_of_mem _ hx))

/-- The tree upload of a snapshot directory, whole or partial, leaves the metadata object as
it was. -/
theorem UploadFolder_preserves_metadata (cfg : Config) (ts : Int) (entries : List WalkEntry)
    (remote : Store)
    (hw : ∀ e ∈ entries, isWalkPath (getBackupPath (snapshotName ts)) e.path = true) :
    getObject (UploadFolder (getBackupPath (snapshotName ts))
        (cfg.REMOTE_FOLDER ++ "/".toList ++ snapshotName ts) entries remote).2
        (metadataKey cfg) = getObject remote (metadataKey cfg) := by
  have hstore : (UploadFolder (getBackupPath (snapshotName ts))
      (cfg.REMOTE_FOLDER ++ "/".toList ++ snapshotName ts) entries remote).2 =
      (walk (getBackupPath (snapshotName ts))
        (cfg.REMOTE_FOLDER ++ "/".toList ++ snapshotName ts) entries remote).2 := by
    unfold UploadFolder
    cases walk (getBackupPath (snapshotName ts))
        (cfg.REMOTE_FOLDER ++ "/".toList ++ snapshotName ts) entries remote with
    | mk err r => cases err <;> rfl
  rw [hstore]
  obtain ⟨ups, hups, hkeys⟩ := walk_store (getBackupPath (snapshotName ts))
    (cfg.REMOTE_FOLDER ++ "/".toList ++ snapshotName ts) entries remote
  rw [hups]
  apply getObject_append_of_ne
  intro kv hkv
  obtain ⟨e, he, hk⟩ := hkeys kv hkv
  obtain ⟨rel, hrel, hkey⟩ := s3KeyOf_walkPath (getBackupPath (snapshotName ts))
    (cfg.REMOTE_FOLDER ++ "/".toList ++ snapshotName ts) e.path (by simp) (hw e he)
  rw [hk, hkey]
  obtain ⟨h1, h2, h3⟩ := snapshotName_real ts
  have hform : cfg.REMOTE_FOLDER ++ "/".toList ++ snapshotName ts ++ '/' :: rel =
      cfg.REMOTE_FOLDER ++ '/' :: (snapshotName ts ++ '/' :: rel) := by simp
  rw [hform]
  exact Clean_ne_metadataKey cfg.REMOTE_FOLDER (snapshotName ts) rel h1 h2 h3 hrel

theorem remoteMetadata_congr (cfg : Config) (r1 r2 : Store)
    (h : getObject r1 (metadataKey cfg) = getObject r2 (metadataKey cfg)) :
    remoteMetadata cfg r1 = remoteMetadata cfg r2 := by
  unfold remoteMetadata GetMetadata
  simp only [h]

theorem remoteMetadata_of_record (cfg : Config) (remote : Store) (ts : Int)
    (h : getObject remote (metadataKey cfg) =
      some (marshalMetadata { LastSnapshot := some (snapshotName ts) })) :
    remoteMetadata cfg remote = some { LastSnapshot := some (snapshotName ts) } := by
  unfold remoteMetadata GetMetadata
  simp only [h]
  rw [marshal_record _ (snapshotName_plain ts)]
  exact unmarshal_record _ (snapshotName_plain ts)

/-- The run from the tool invocation on: the metadata write succeeds exactly when the tree
upload returned nil and the put of the record succeeded; then the metadata object is the
new record, and otherwise it is what it was. -/
theorem backupFromTool_metadata (cfg : Config) (o : Outcomes) (w : World)
    (events : List Event) (m : Option Str)
    (hw : ∀ e ∈ o.walk, isWalkPath (getBackupPath (snapshotName o.now)) e.path = true)
    (h1 : uploadSucceeded events = false) (h2 : uploadFailed events = false)
    (h3 : metadataWritten events = false) :
    (metadataWritten (backupFromTool cfg o w events m).2 =
      (uploadSucceeded (backupFromTool cfg o w events m).2 && o.metadataPut.isNone)) ∧
    (uploadFailed (backupFromTool cfg o w events m).2 = true →
      uploadSucceeded (backupFromTool cfg o w events m).2 = false) ∧
    (metadataWritten (backupFromTool cfg o w events m).2 = true →
      getObject (backupFromTool cfg o w events m).1.remote (metadataKey cfg) =
        some (marshalMetadata { LastSnapshot := some (snapshotName o.now) })) ∧
    (metadataWritten (backupFromTool cfg o w events m).2 = false →
      getObject (backupFromTool cfg o w events m).1.remote (metadataKey cfg) =
        getObject w.remote (metadataKey cfg)) := by
  have hU := UploadFolder_preserves_metadata cfg o.now o.walk w.remote hw
  unfold uploadSucceeded at h1 ⊢
  unfold uploadFailed at h2 ⊢
  unfold metadataWritten at h3 ⊢
  unfold backupFromTool runCommand
  cases o.tool.exitErr with
  | some err =>
    simp only [List.any_append, List.any_cons, List.any_nil, h1, h2, h3, Event.isUploadOk,
      Event.isUploadFailed, Event.isSetMetadataOk]
    simp
  | none =>
    simp only
    cases hUF : UploadFolder (getBackupPath (snapshotName o.now))
        (cfg.REMOTE_FOLDER ++ "/".toList ++ snapshotName o.now) o.walk w.remote with
    | mk uerr remote1 =>
      rw [hUF] at hU
      simp only at hU
      cases uerr with
      | some err =>
        simp only [List.any_append, List.any_cons, List.any_nil, h1, h2, h3, Event.isUploadOk,
          Event.isUploadFailed, Event.isSetMetadataOk]
        simp [hU]
      | none =>
        simp only
        unfold SetMetadata
        cases hput : o.metadataPut with
        | some err =>
          simp only [List.any_append, List.any_cons, List.any_nil, h1, h2, h3,
            Event.isUploadOk, Event.isUploadFailed, Event.isSetMetadataOk]
          simp [hU]
        | none =>
          simp only [List.any_append, List.any_cons, List.any_nil, h1, h2, h3,
            Event.isUploadOk, Event.isUploadFailed, Event.isSetMetadataOk]
          simp [getObject_putObject]

/-- C1 (as stated, refuted): in a second run whose tree upload succeeds and whose metadata
write fails, the upload step returned nil and the metadata record still names the previous
snapshot, not the new one. -/
theorem backup_upload_ok_metadata_unchanged :
    uploadSucceeded (backup sampleConfig (metadataPutFailsRun 2) afterFirstRun).2 = true ∧
      remoteMetadata sampleConfig afterFirstRun.remote =
        some { LastSnapshot := some "snapshot-1".toList } ∧
      remoteMetadata sampleConfig
          (backup sampleConfig (metadataPutFailsRun 2) afterFirstRun).1.remote =
        some { LastSnapshot := some "snapshot-1".toList } ∧
      snapshotName (metadataPutFailsRun 2).now = "snapshot-2".toList := by
  refine ⟨by decide, by decide, by decide, by decide⟩

/-- C1 (amended): in every run whose walk visits paths of the snapshot directory, the
metadata write succeeds exactly when the tree upload returned nil and the put of the record
succeeded; when it succeeds the metadata record names the new snapshot; when it does not,
and in particular whenever the tree upload fails, the metadata object is what it was before
the run. -/
theorem backup_metadata_update (cfg : Config) (o : Outcomes) (w : World)
    (hw : ∀ e ∈ o.walk, isWalkPath (getBackupPath (snapshotName o.now)) e.path = true) :
    (metadataWritten (backup cfg o w).2 =
      (uploadSucceeded (backup cfg o w).2 && o.metadataPut.isNone)) ∧
    (metadataWritten (backup cfg o w).2 = true →
      remoteMetadata cfg (backup cfg o w).1.remote =
        some { LastSnapshot := some (snapshotName o.now) }) ∧
    (metadataWritten (backup cfg o w).2 = false →
      getObject (backup cfg o w).1.remote (metadataKey cfg) =
          getObject w.remote (metadataKey cfg) ∧
        remoteMetadata cfg (backup cfg o w).1.remote = remoteMetadata cfg w.remote) ∧
    (uploadFailed (backup cfg o w).2 = true →
      getObject (backup cfg o w).1.remote (metadataKey cfg) =
          getObject w.remote (metadataKey cfg) ∧
        remoteMetadata cfg (backup cfg o w).1.remote = remoteMetadata cfg w.remote) := by
  have key : ∃ (w1 : World) (events : List Event) (m : Option Str),
      backup cfg o w = backupFromTool cfg o w1 events m ∧ w1.remote = w.remote ∧
        uploadSucceeded events = false ∧ uploadFailed events = false ∧
        metadataWritten events = false ∨
      (backup cfg o w).1.remote = w.remote ∧ uploadSucceeded (backup cfg o w).2 = false ∧
        uploadFailed (backup cfg o w).2 = false ∧ metadataWritten (backup cfg o w).2 = false := by
    cases hG : GetMetadata cfg o.metadataFetch w.remote with
    | none =>
      exact ⟨w, _, none, Or.inl ⟨backup_of_no_snapshot cfg o w (Or.inl hG), rfl, rfl, rfl, rfl⟩⟩
    | some md =>
      obtain ⟨ls⟩ := md
      cases ls with
      | none =>
        exact ⟨w, _, none,
          Or.inl ⟨backup_of_no_snapshot cfg o w (Or.inr hG), rfl, rfl, rfl, rfl⟩⟩
      | some last =>
        have hb := backup_of_snapshot cfg o w last hG
        cases hD : DownloadFile o.manifestDownload w.remote (manifestKey cfg last)
          (getBackupPath "backup_manifest".toList) w.staging with
        | mk derr staging1 =>
          rw [hD] at hb
          cases derr with
          | some err =>
            refine ⟨w, [], none, Or.inr ?_⟩
            rw [hb]
            exact ⟨rfl, rfl, rfl, rfl⟩
          | none => exact ⟨_, _, _, Or.inl ⟨hb, rfl, rfl, rfl, rfl⟩⟩
  obtain ⟨w1, events, m, h⟩ := key
  rcases h with ⟨hb, hr, h1, h2, h3⟩ | ⟨hr, h1, h2, h3⟩
  · obtain ⟨a, b, c, d⟩ := backupFromTool_metadata cfg o w1 events m hw h1 h2 h3
    rw [← hb, hr] at *
    refine ⟨a, fun h => remoteMetadata_of_record cfg _ _ (c h),
      fun h => ⟨d h, remoteMetadata_congr cfg _ _ (d h)⟩, fun h => ?_⟩
    have hnot : metadataWritten (backup cfg o w).2 = false := by
      rw [a, b h]; rfl
    exact ⟨d hnot, remoteMetadata_congr cfg _ _ (d hnot)⟩
  · rw [hr, h1, h2, h3]
    simp

/-- C1 (amended) at a second run whose upload of the manifest fails: the walk visits paths
of the snapshot directory, the upload failed, and the metadata record is what it was. -/
theorem backup_metadata_update_witness :
    (∀ e ∈ (uploadFailsRun 2).walk,
        isWalkPath (getBackupPath (snapshotName (uploadFailsRun 2).now)) e.path = true) ∧
      uploadFailed (backup sampleConfig (uploadFailsRun 2) afterFirstRun).2 = true ∧
      getObject (backup sampleConfig (uploadFailsRun 2) afterFirstRun).1.remote
          (metadataKey sampleConfig) = getObject afterFirstRun.remote (metadataKey sampleConfig) ∧
      remoteMetadata sampleConfig (backup sampleConfig (uploadFailsRun 2) afterFirstRun).1.remote =
        remoteMetadata sampleConfig afterFirstRun.remote :=
  ⟨by decide, by decide,
    (backup_metadata_update sampleConfig (uploadFailsRun 2) afterFirstRun (by decide)).2.2.2
      (by decide)⟩

/-! ## C6: the keys of the uploaded files -/

theorem joinSep_append (sep : Char) (A B : List Str) (hA : A ≠ []) (hB : B ≠ []) :
    joinSep sep (A ++ B) = joinSep sep A ++ sep :: joinSep sep B := by
  induction A with
  | nil => exact absurd rfl hA
  | cons a rest ih =>
    cases rest with
    | nil =>
      rw [List.singleton_append, joinSep_cons sep a B hB]
      rfl
    | cons b t =>
      rw [List.cons_append, joinSep_cons sep a _ (by simp), ih (by simp),
        joinSep_cons sep a (b :: t) (by simp)]
      simp

/-- Under a remote prefix that `filepath.Clean` leaves as it is (and that is neither `.` nor
the root), a walked descendant `localRoot/<rel>` gets the key `remotePrefix/<rel>`. -/
theorem s3KeyOf_clean_prefix (root pre rel : Str) (hclean : Clean pre = pre)
    (hdot : pre ≠ ['.']) (hroot : pre ≠ ['/'])
    (hrel : ∀ n ∈ splitSep '/' rel, validName n = true) :
    s3KeyOf root pre (root ++ '/' :: rel) = pre ++ '/' :: rel := by
  have hpre : pre ≠ [] := by
    intro h
    rw [h] at hclean
    exact absurd hclean (by decide)
  have hkey : s3KeyOf root pre (root ++ '/' :: rel) = Clean (pre ++ '/' :: rel) := by
    unfold s3KeyOf
    simp only
    have e2 : trimPrefix ('/' :: rel) ['/'] = rel := trimPrefix_self_append ['/'] rel
    rw [trimPrefix_self_append root, e2]
    unfold Join
    rw [List.dropWhile_cons_of_neg (by simpa using hpre)]
    rfl
  have hhead : (pre ++ '/' :: rel).head? = pre.head? := by
    cases pre with
    | nil => exact absurd rfl hpre
    | cons c t => rfl
  have hreal : ∀ e ∈ splitSep '/' rel, realElem e := fun e he => (validName_real e (hrel e he)).1
  have hT : splitSep '/' rel ≠ [] := splitSep_ne_nil _ _
  have hout : cleanElems (decide ((pre ++ '/' :: rel).head? = some '/'))
      (splitSep '/' (pre ++ '/' :: rel)) =
      cleanElems (decide (pre.head? = some '/')) (splitSep '/' pre) ++ splitSep '/' rel := by
    rw [splitSep_append_sep, hhead, cleanElems_append_real _ _ _ hreal]
  rw [hkey, Clean_of_elems _ _ (by simp) hout (by simp [hT]), hhead]
  unfold Clean at hclean
  simp only [hpre, if_false] at hclean
  by_cases hr : pre.head? = some '/'
  · rw [if_pos hr] at hclean ⊢
    have hcE : cleanElems (decide (pre.head? = some '/')) (splitSep '/' pre) ≠ [] := by
      intro h
      rw [h] at hclean
      exact hroot hclean.symm
    rw [joinSep_append _ _ _ hcE hT, joinSep_splitSep]
    conv_rhs => rw [← hclean]
    rfl
  · rw [if_neg hr] at hclean ⊢
    have hcE : cleanElems (decide (pre.head? = some '/')) (splitSep '/' pre) ≠ [] := by
      intro h
      rw [if_pos h] at hclean
      exact hdot hclean.symm
    rw [if_neg hcE] at hclean
    rw [joinSep_append _ _ _ hcE hT, joinSep_splitSep]
    conv_rhs => rw [← hclean]

/-- C6 (the code at the failing input): with `REMOTE_FOLDER=./backups` the manifest of
`snapshot-1` is uploaded under `backups/snapshot-1/backup_manifest`, which is not
`./backups/snapshot-1/backup_manifest`, the remote prefix followed by the relative path;
the next run asks for the latter key, finds nothing, and stops before the tool. -/
theorem UploadFolder_key_not_prefix_rel :
    s3KeyOf (getBackupPath "snapshot-1".toList) "./backups/snapshot-1".toList
        (getBackupPath "snapshot-1".toList ++ "/backup_manifest".toList) =
      "backups/snapshot-1/backup_manifest".toList ∧
    getObject afterFirstDotRun.remote "backups/snapshot-1/backup_manifest".toList =
      some "manifest".toList ∧
    getObject afterFirstDotRun.remote "./backups/snapshot-1/backup_manifest".toList = none ∧
    (backup dotConfig (goodRun 2) afterFirstDotRun).2 =
      [Event.createBackupFolder,
        .getMetadata "./backups/metadata.json".toList
          (some { LastSnapshot := some "snapshot-1".toList }),
        .downloadFile "./backups/snapshot-1/backup_manifest".toList
          "/tmp/backups/backup_manifest".toList
          (some "Failed to fetch object ./backups/snapshot-1/backup_manifest: NoSuchKey".toList)] := by
  refine ⟨by decide, by decide, by decide, by decide⟩

/-! ## C8: the run lock -/

theorem step_runInProgress (cfg : Config) (outcomes : Nat → Outcomes) (w : World) (i : Nat)
    (q : Process) (h : step cfg outcomes (runInProgress w) i = some q) :
    i = 0 ∧ q = firstReturned cfg outcomes w := by
  match i with
  | 0 =>
    simp only [step, runInProgress, trigger, List.append_eq, List.singleton_append,
      List.getElem?_cons_zero, List.nil_append, List.map_nil, Option.some.injEq] at h
    exact ⟨rfl, h.symm⟩
  | 1 => simp [step, runInProgress, trigger] at h
  | n + 2 => simp [step, runInProgress, trigger] at h

theorem step_firstReturned (cfg : Config) (outcomes : Nat → Outcomes) (w : World) (i : Nat)
    (q : Process) (h : step cfg outcomes (firstReturned cfg outcomes w) i = some q) :
    i = 1 ∧ q = secondRunning cfg outcomes w := by
  match i with
  | 0 => simp [step, firstReturned] at h
  | 1 =>
    simp only [step, firstReturned, List.getElem?_cons_succ, List.getElem?_cons_zero,
      Bool.false_eq_true, if_false, Option.some.injEq] at h
    exact ⟨rfl, h.symm⟩
  | n + 2 => simp [step, firstReturned] at h

theorem step_secondRunning (cfg : Config) (outcomes : Nat → Outcomes) (w : World) (i : Nat)
    (q : Process) (h : step cfg outcomes (secondRunning cfg outcomes w) i = some q) :
    i = 1 ∧ q = bothReturned cfg outcomes w := by
  match i with
  | 0 => simp [step, secondRunning, firstReturned] at h
  | 1 =>
    simp only [step, secondRunning, firstReturned, List.getElem?_cons_succ,
      List.getElem?_cons_zero, Option.some.injEq] at h
    exact ⟨rfl, h.symm⟩
  | n + 2 => simp [step, secondRunning, firstReturned] at h

theorem step_bothReturned (cfg : Config) (outcomes : Nat → Outcomes) (w : World) (i : Nat) :
    step cfg outcomes (bothReturned cfg outcomes w) i = none := by
  match i with
  | 0 => simp [step, bothReturned]
  | 1 => simp [step, bothReturned]
  | n + 2 => simp [step, bothReturned]

/-- The executions from a run in progress with a second trigger pending: a prefix of
"the first run returns, the second invocation takes the mutex, the second run returns". -/
theorem exec_runInProgress (cfg : Config) (outcomes : Nat → Outcomes) (w : World)
    (sched : List Nat) (p : Process)
    (h : exec cfg outcomes sched (runInProgress w) = some p) :
    (sched = [] ∧ p = runInProgress w) ∨ (sched = [0] ∧ p = firstReturned cfg outcomes w) ∨
      (sched = [0, 1] ∧ p = secondRunning cfg outcomes w) ∨
      (sched = [0, 1, 1] ∧ p = bothReturned cfg outcomes w) := by
  cases sched with
  | nil => exact Or.inl ⟨rfl, by simpa [exec] using h.symm⟩
  | cons i s1 =>
    rw [exec] at h
    cases h0 : step cfg outcomes (runInProgress w) i with
    | none => simp [h0] at h
    | some q =>
      obtain ⟨rfl, rfl⟩ := step_runInProgress cfg outcomes w i q h0
      simp only [h0] at h
      cases s1 with
      | nil => exact Or.inr (Or.inl ⟨rfl, by simpa [exec] using h.symm⟩)
      | cons j s2 =>
        rw [exec] at h
        cases h1 : step cfg outcomes (firstReturned cfg outcomes w) j with
        | none => simp [h1] at h
        | some q =>
          obtain ⟨rfl, rfl⟩ := step_firstReturned cfg outcomes w j q h1
          simp only [h1] at h
          cases s2 with
          | nil => exact Or.inr (Or.inr (Or.inl ⟨rfl, by simpa [exec] using h.symm⟩))
          | cons k s3 =>
            rw [exec] at h
            cases h2 : step cfg outcomes (secondRunning cfg outcomes w) k with
            | none => simp [h2] at h
            | some q =>
              obtain ⟨rfl, rfl⟩ := step_secondRunning cfg outcomes w k q h2
              simp only [h2] at h
              cases s3 with
              | nil => exact Or.inr (Or.inr (Or.inr ⟨rfl, by simpa [exec] using h.symm⟩))
              | cons l s4 =>
                rw [exec, step_bothReturned] at h
                simp at h

/-- The complete execution: the first run returns, the second invocation takes the mutex,
the second run returns. -/
theorem exec_complete (cfg : Config) (outcomes : Nat → Outcomes) (w : World) :
    exec cfg outcomes [0, 1, 1] (runInProgress w) = some (bothReturned cfg outcomes w) := by
  simp [exec, step, runInProgress, trigger, bothReturned, tagged]

/-- C8 (as stated, refuted): from a run in progress with a second trigger pending, the
execution "first run returns, second invocation takes the mutex, second run returns" ends
with both invocations returned and with the staging, metadata, tool, upload and purge steps
of the second invocation in the log: the second invocation is not dropped. -/
theorem run_lock_second_invocation_runs :
    ∃ p, exec sampleConfig sampleOutcomes [0, 1, 1]
        (runInProgress { remote := [], staging := [] }) = some p ∧
      p.invocations = [.returned, .returned] ∧
      (p.log.filter (fun e => e.1 == 1)).map Prod.snd =
        [Event.createBackupFolder,
          .getMetadata "backups/metadata.json".toList
            (some { LastSnapshot := some "snapshot-1".toList }),
          .downloadFile "backups/snapshot-1/backup_manifest".toList
            "/tmp/backups/backup_manifest".toList none,
          .runCommand (commandArgs sampleConfig "/tmp/backups/snapshot-2".toList
            (some "/tmp/backups/backup_manifest".toList)) (some "snapshot-2".toList),
          .uploadFolder "/tmp/backups/snapshot-2".toList "backups/snapshot-2".toList none,
          .setMetadata "backups/metadata.json".toList
            "\x7b\"lastSnapshot\":\"snapshot-2\"\x7d".toList none,
          .deleteBackupContents none] :=
  ⟨bothReturned sampleConfig sampleOutcomes { remote := [], staging := [] },
    exec_complete _ _ _, by decide, by decide⟩

/-- C8 (amended): with a run in progress, an invocation that arrives at `mu.Lock()` cannot
move while the mutex is held; every execution that runs until no invocation can move is
"the first run returns, the waiting invocation takes the mutex, its run returns", and ends
with both runs executed one after the other, the second on the state the first left; and
that execution exists. -/
theorem run_lock_serialises (cfg : Config) (outcomes : Nat → Outcomes) (w : World) :
    step cfg outcomes (runInProgress w) 1 = none ∧
    step cfg outcomes (secondRunning cfg outcomes w) 0 = none ∧
    (∀ (sched : List Nat) (p : Process),
      exec cfg outcomes sched (runInProgress w) = some p →
      (∀ i, step cfg outcomes p i = none) →
      sched = [0, 1, 1] ∧ p = bothReturned cfg outcomes w) ∧
    exec cfg outcomes [0, 1, 1] (runInProgress w) = some (bothReturned cfg outcomes w) := by
  have hexec := exec_complete cfg outcomes w
  have h0 : step cfg outcomes (runInProgress w) 0 = some (firstReturned cfg outcomes w) := by
    simp [step, runInProgress, trigger, firstReturned, tagged]
  have h1 : step cfg outcomes (firstReturned cfg outcomes w) 1 =
      some (secondRunning cfg outcomes w) := by
    simp [step, firstReturned, secondRunning]
  have h2 : step cfg outcomes (secondRunning cfg outcomes w) 1 =
      some (bothReturned cfg outcomes w) := by
    simp [step, firstReturned, secondRunning, bothReturned, tagged]
  refine ⟨by simp [step, runInProgress, trigger], by simp [step, secondRunning, firstReturned],
    ?_, hexec⟩
  intro sched p hp hstuck
  rcases exec_runInProgress cfg outcomes w sched p hp with h | h | h | h
  · have := hstuck 0; rw [h.2, h0] at this; exact absurd this (by simp)
  · have := hstuck 1; rw [h.2, h1] at this; exact absurd this (by simp)
  · have := hstuck 1; rw [h.2, h2] at this; exact absurd this (by simp)
  · exact h

/-- C8 (amended) at two runs on an empty bucket: the execution in which the first run
returns, the second invocation takes the mutex and the second run returns is complete, and
it is the one the theorem names. -/
theorem run_lock_serialises_witness :
    exec sampleConfig sampleOutcomes [0, 1, 1]
        (runInProgress { remote := [], staging := [] }) =
      some (bothReturned sampleConfig sampleOutcomes { remote := [], staging := [] }) ∧
    (∀ i, step sampleConfig sampleOutcomes
      (bothReturned sampleConfig sampleOutcomes { remote := [], staging := [] }) i = none) ∧
    ([0, 1, 1] = [0, 1, 1] ∧
      bothReturned sampleConfig sampleOutcomes { remote := [], staging := [] } =
        bothReturned sampleConfig sampleOutcomes { remote := [], staging := [] }) :=
  ⟨exec_complete _ _ _, fun i => step_bothReturned _ _ _ i,
    (run_lock_serialises sampleConfig sampleOutcomes { remote := [], staging := [] }).2.2.1
      [0, 1, 1] (bothReturned sampleConfig sampleOutcomes { remote := [], staging := [] })
      (exec_complete _ _ _)
      (fun i => step_bothReturned sampleConfig sampleOutcomes { remote := [], staging := [] } i)⟩

end PgBackup
